import Mathlib

/-!
Verification development for the rovel TTS orchestration backend.

This file gives a shallow embedding, in Lean 4, of the inference
orchestration core of the repository: the in-memory task manager
(src/infrastructure/memory/task_manager.rs), the in-memory session manager
(src/infrastructure/memory/session_manager.rs), the event publisher
(src/infrastructure/events/publisher.rs), the sled-backed audio cache
(src/infrastructure/persistence/sled/audio_cache.rs), the inference worker
(src/infrastructure/worker/infer_worker.rs), the command handlers
(src/application/commands/handlers), the cache-key derivation
(src/application/ports/audio_cache.rs) and the text segmenter
(src/domain/text_segmenter.rs).

Modelling conventions:
- Rust strings are Lean Strings, or List Char where character-level
  reasoning is needed (the segmenter).
- DashMap and the sled keyspace are modelled as association lists with
  unique keys; the two disjoint sled prefixes become two separate maps.
- Timestamps are passed in explicitly (a Nat or Int parameter standing for
  the value produced by the clock at that call).
- Fallible external effects (sled write-backs, the TTS engine, the catalog)
  are passed in as explicit outcome parameters, one per call site.
- UUID values are rendered strings wherever only their identity and their
  Display form matter; claim C8 models the raw 16-byte value itself.
-/

set_option maxRecDepth 4000

namespace Rovel

/-! ## Association-list maps

Both DashMap (task/session tables, event channel registry) and the sled
keyspace are key-value stores with unique keys; we model them as
association lists without duplicate keys, with insert-or-replace,
lookup and erase. -/

abbrev TMap (α : Type) : Type := List (String × α)

namespace TMap

def lookup {α : Type} : TMap α → String → Option α
  | [], _ => none
  | (k', v) :: rest, k => if k' = k then some v else lookup rest k

def insert {α : Type} : TMap α → String → α → TMap α
  | [], k, v => [(k, v)]
  | (k', v') :: rest, k, v =>
    if k' = k then (k, v) :: rest else (k', v') :: insert rest k v

def erase {α : Type} : TMap α → String → TMap α
  | [], _ => []
  | (k', v') :: rest, k => if k' = k then rest else (k', v') :: erase rest k

def contains {α : Type} (m : TMap α) (k : String) : Bool :=
  (lookup m k).isSome

end TMap

/-! ## Task model (src/application/ports/task_manager.rs) -/

inductive TaskState where
  | pending
  | inferring
  | ready
  | failed
  | cancelled
deriving DecidableEq, Repr

def TaskState.isTerminal : TaskState → Bool
  | .ready | .failed | .cancelled => true
  | _ => false

structure InferenceTask where
  taskId : String
  sessionId : String
  novelId : String
  voiceId : String
  segmentIndex : Nat
  segmentContent : String
  state : TaskState
  createdAt : Nat
  completedAt : Option Nat
  errorMessage : Option String
deriving DecidableEq, Repr

/-- InferenceTask::new: a fresh task is Pending with no completion stamp. -/
def InferenceTask.mkNew (taskId sessionId novelId voiceId : String)
    (segmentIndex : Nat) (segmentContent : String) (now : Nat) : InferenceTask :=
  { taskId := taskId
    sessionId := sessionId
    novelId := novelId
    voiceId := voiceId
    segmentIndex := segmentIndex
    segmentContent := segmentContent
    state := .pending
    createdAt := now
    completedAt := none
    errorMessage := none }

inductive TaskError where
  | notFound (id : String)
  | alreadyExists (id : String)
  | invalidStateTransition (msg : String)
deriving DecidableEq, Repr

/-! ## In-memory task manager (src/infrastructure/memory/task_manager.rs)

State: the task table, the per-session secondary index (a HashSet per
session, modelled as a duplicate-free list), and the bounded mpsc queue
(modelled as its buffered contents plus its capacity; try_send succeeds
exactly when the buffer is below capacity). -/

structure TaskManagerState where
  tasks : TMap InferenceTask
  sessionTasks : TMap (List String)
  queue : List String
  queueCap : Nat
deriving Repr

namespace TaskManagerState

/-- HashSet::insert on the per-session id set. -/
def setInsert (s : List String) (x : String) : List String :=
  if x ∈ s then s else s ++ [x]

/-- One iteration of InMemoryTaskManager::submit: store the task, add it
to its session's set, and try_send its id to the bounded queue (dropped
when the queue is full). -/
def submitOne (st : TaskManagerState) (task : InferenceTask) : TaskManagerState :=
  let tasks' := TMap.insert st.tasks task.taskId task
  let prev := (TMap.lookup st.sessionTasks task.sessionId).getD []
  let sessionTasks' := TMap.insert st.sessionTasks task.sessionId (setInsert prev task.taskId)
  let queue' := if st.queue.length < st.queueCap then st.queue ++ [task.taskId] else st.queue
  { st with tasks := tasks', sessionTasks := sessionTasks', queue := queue' }

/-- InMemoryTaskManager::submit: always returns Ok with the ids in order. -/
def submit (st : TaskManagerState) (ts : List InferenceTask) :
    List String × TaskManagerState :=
  (ts.map (·.taskId), ts.foldl submitOne st)

/-- The body of the loop of InMemoryTaskManager::cancel_pending: when the
task exists and its current state is Pending, transition it to Cancelled,
stamp completed_at, and count it. -/
def cancelStep (now : Nat) (acc : Nat × TaskManagerState) (tid : String) :
    Nat × TaskManagerState :=
  match TMap.lookup acc.2.tasks tid with
  | none => acc
  | some t =>
    if t.state = .pending then
      (acc.1 + 1,
       { acc.2 with
         tasks := TMap.insert acc.2.tasks tid
           { t with state := .cancelled, completedAt := some now } })
    else acc

/-- InMemoryTaskManager::cancel_pending: for each task id in the session's
set, transition it to Cancelled (stamping completed_at) when its current
state is Pending; return the number of transitions. -/
def cancelPending (st : TaskManagerState) (sessionId : String) (now : Nat) :
    Nat × TaskManagerState :=
  match TMap.lookup st.sessionTasks sessionId with
  | none => (0, st)
  | some ids => ids.foldl (cancelStep now) (0, st)

/-- InMemoryTaskManager::is_cancelled: a missing task counts as cancelled. -/
def isCancelled (st : TaskManagerState) (taskId : String) : Bool :=
  match TMap.lookup st.tasks taskId with
  | some t => t.state = .cancelled
  | none => true

def getState (st : TaskManagerState) (taskId : String) : Option TaskState :=
  (TMap.lookup st.tasks taskId).map (·.state)

def getTask (st : TaskManagerState) (taskId : String) : Option InferenceTask :=
  TMap.lookup st.tasks taskId

/-- InMemoryTaskManager::set_state: overwrite the state unconditionally;
stamp completed_at when the new state is terminal. -/
def setState (st : TaskManagerState) (taskId : String) (s : TaskState) (now : Nat) :
    Except TaskError TaskManagerState :=
  match TMap.lookup st.tasks taskId with
  | none => .error (.notFound taskId)
  | some t =>
    .ok { st with
          tasks := TMap.insert st.tasks taskId
            { t with state := s
                     completedAt := if s.isTerminal then some now else t.completedAt } }

/-- InMemoryTaskManager::set_failed. -/
def setFailed (st : TaskManagerState) (taskId : String) (msg : String) (now : Nat) :
    Except TaskError TaskManagerState :=
  match TMap.lookup st.tasks taskId with
  | none => .error (.notFound taskId)
  | some t =>
    .ok { st with
          tasks := TMap.insert st.tasks taskId
            { t with state := .failed, errorMessage := some msg, completedAt := some now } }

/-- InMemoryTaskManager::cleanup_session: drop the session's id set and
remove every referenced task from the table. -/
def cleanupSession (st : TaskManagerState) (sessionId : String) : TaskManagerState :=
  match TMap.lookup st.sessionTasks sessionId with
  | none => st
  | some ids =>
    { st with
      sessionTasks := TMap.erase st.sessionTasks sessionId
      tasks := ids.foldl (fun m tid => TMap.erase m tid) st.tasks }

end TaskManagerState

/-! ## In-memory session manager (src/infrastructure/memory/session_manager.rs) -/

structure Session where
  id : String
  novelId : String
  voiceId : String
  currentIndex : Nat
  createdAt : Nat
  lastActivity : Nat
deriving DecidableEq, Repr

inductive SessionError where
  | notFound (id : String)
  | alreadyExists (id : String)
deriving DecidableEq, Repr

structure SessionManagerState where
  sessions : TMap Session
deriving Repr

namespace SessionManagerState

def create (sm : SessionManagerState) (s : Session) :
    Except SessionError (String × SessionManagerState) :=
  if TMap.contains sm.sessions s.id then .error (.alreadyExists s.id)
  else .ok (s.id, { sessions := TMap.insert sm.sessions s.id s })

def get (sm : SessionManagerState) (id : String) : Except SessionError Session :=
  match TMap.lookup sm.sessions id with
  | some s => .ok s
  | none => .error (.notFound id)

def updateIndex (sm : SessionManagerState) (id : String) (index : Nat) (now : Nat) :
    Except SessionError SessionManagerState :=
  match TMap.lookup sm.sessions id with
  | none => .error (.notFound id)
  | some s =>
    .ok { sessions := TMap.insert sm.sessions id
            { s with currentIndex := index, lastActivity := now } }

def isValid (sm : SessionManagerState) (id : String) : Bool :=
  TMap.contains sm.sessions id

def close (sm : SessionManagerState) (id : String) :
    Except SessionError SessionManagerState :=
  match TMap.lookup sm.sessions id with
  | none => .error (.notFound id)
  | some _ => .ok { sessions := TMap.erase sm.sessions id }

end SessionManagerState

/-! ## Event publisher (src/infrastructure/events/publisher.rs)

Only the per-session plane is needed by the claims. A registered session
channel is modelled as the list of events successfully sent on it;
publishing to an unregistered session is a silent no-op, exactly as
publish_to_session ignores the missing-sender case. -/

inductive WsEvent where
  | taskStateChanged (sessionId taskId : String) (segmentIndex : Nat)
      (state : String) (durationMs : Option Nat) (error : Option String)
  | sessionClosed (sessionId : String) (reason : String)
deriving DecidableEq, Repr

structure EventPublisherState where
  sessionChannels : TMap (List WsEvent)

namespace EventPublisherState

/-- EventPublisher::publish_to_session: deliver on the session's channel
when one is registered, silently drop otherwise. -/
def publishToSession (ep : EventPublisherState) (sessionId : String) (e : WsEvent) :
    EventPublisherState :=
  match TMap.lookup ep.sessionChannels sessionId with
  | some ch => { sessionChannels := TMap.insert ep.sessionChannels sessionId (ch ++ [e]) }
  | none => ep

/-- EventPublisher::publish_session_closed. -/
def publishSessionClosed (ep : EventPublisherState) (sessionId reason : String) :
    EventPublisherState :=
  publishToSession ep sessionId (.sessionClosed sessionId reason)

/-- EventPublisher::publish_task_ready. -/
def publishTaskReady (ep : EventPublisherState) (taskId sessionId : String)
    (segmentIndex : Nat) : EventPublisherState :=
  publishToSession ep sessionId
    (.taskStateChanged sessionId taskId segmentIndex "ready" none none)

/-- EventPublisher::publish_task_inferring. -/
def publishTaskInferring (ep : EventPublisherState) (taskId sessionId : String)
    (segmentIndex : Nat) : EventPublisherState :=
  publishToSession ep sessionId
    (.taskStateChanged sessionId taskId segmentIndex "inferring" none none)

/-- EventPublisher::publish_task_failed. -/
def publishTaskFailed (ep : EventPublisherState) (taskId sessionId : String)
    (segmentIndex : Nat) (error : String) : EventPublisherState :=
  publishToSession ep sessionId
    (.taskStateChanged sessionId taskId segmentIndex "failed" none (some error))

/-- EventPublisher::unregister_session. -/
def unregisterSession (ep : EventPublisherState) (sessionId : String) :
    EventPublisherState :=
  { sessionChannels := TMap.erase ep.sessionChannels sessionId }

end EventPublisherState

/-! ## Sled audio cache (src/infrastructure/persistence/sled/audio_cache.rs)

The sled keyspace uses two disjoint prefixes; we model it as two maps:
primary (cache_key, stored in the source under "cache:" + cache_key) and
mapping (the back-index "novel:index:voice" record, stored under
"mapping:" + triple). The AtomicU64 byte counter and the hit/miss
counters are plain naturals. -/

inductive CacheError where
  | notFound (k : String)
  | evictionFailed
  | serializationError (msg : String)
  | ioError (msg : String)
  | databaseError (msg : String)
deriving DecidableEq, Repr

structure InternalCacheEntry where
  audioData : List Nat
  sizeBytes : Nat
  durationMs : Nat
  contentHash : String
  novelId : String
  segmentIndex : Nat
  voiceId : String
  lastAccessed : Int
  createdAt : Int
  sampleRate : Option Nat
deriving DecidableEq, Repr

structure CacheMetadata where
  novelId : String
  segmentIndex : Nat
  voiceId : String
  contentHash : String
  durationMs : Nat
  sampleRate : Option Nat
deriving DecidableEq, Repr

structure SledCacheState where
  primary : TMap InternalCacheEntry
  mapping : TMap String
  currentSize : Nat
  maxSize : Nat
  hitCount : Nat
  missCount : Nat

namespace SledCacheState

/-- The "mapping:" secondary key for a back-index triple. -/
def mappingKey (novelId : String) (segmentIndex : Nat) (voiceId : String) : String :=
  novelId ++ ":" ++ toString segmentIndex ++ ":" ++ voiceId

/-- The scan in SledAudioCache::evict_lru: fold over the primary prefix
keeping the entry with the smallest last_accessed; the first entry
encountered wins ties (the comparison is strict). -/
def findOldest (entries : TMap InternalCacheEntry) :
    Option (String × InternalCacheEntry) :=
  entries.foldl
    (fun old kv =>
      match old with
      | none => some kv
      | some prev => if kv.2.lastAccessed < prev.2.lastAccessed then some kv else some prev)
    none

/-- SledAudioCache::evict_lru: remove the least-recently-accessed entry
together with its secondary mapping record and subtract its size from the
live byte counter; a no-op when the primary prefix is empty. -/
def evictLru (st : SledCacheState) : SledCacheState :=
  match findOldest st.primary with
  | none => st
  | some (key, entry) =>
    { st with
      primary := TMap.erase st.primary key
      mapping := TMap.erase st.mapping (mappingKey entry.novelId entry.segmentIndex entry.voiceId)
      currentSize := st.currentSize - entry.sizeBytes }

/-- The eviction while-loop at the head of SledAudioCache::put, made
total with explicit fuel: none means the loop is still running after
consuming all the fuel (the source loops with no fuel bound). -/
def putEvictLoop (fuel : Nat) (st : SledCacheState) (size : Nat) :
    Option SledCacheState :=
  if st.currentSize + size > st.maxSize then
    match fuel with
    | 0 => none
    | f + 1 => putEvictLoop f (evictLru st) size
  else some st

/-- SledAudioCache::put: evict until there is headroom, then insert the
entry and its mapping record and bump the byte counter. A none result
means the eviction loop did not finish within the given fuel. -/
def put (fuel : Nat) (st : SledCacheState) (cacheKey : String) (audioData : List Nat)
    (md : CacheMetadata) (now : Int) : Option SledCacheState :=
  let size := audioData.length
  match putEvictLoop fuel st size with
  | none => none
  | some st1 =>
    let entry : InternalCacheEntry :=
      { audioData := audioData
        sizeBytes := size
        durationMs := md.durationMs
        contentHash := md.contentHash
        novelId := md.novelId
        segmentIndex := md.segmentIndex
        voiceId := md.voiceId
        lastAccessed := now
        createdAt := now
        sampleRate := md.sampleRate }
    some { st1 with
           primary := TMap.insert st1.primary cacheKey entry
           mapping := TMap.insert st1.mapping
             (mappingKey md.novelId md.segmentIndex md.voiceId) cacheKey
           currentSize := st1.currentSize + size }

/-- SledAudioCache::get. The sled write-back of the touched entry can
fail; its outcome is the explicit touchWriteOk parameter. On a hit the
source re-serializes the entry with an advanced last_accessed and
propagates a write failure with the question-mark operator. -/
def get (st : SledCacheState) (cacheKey : String) (touchWriteOk : Bool) (now : Int) :
    Except CacheError (Option (List Nat)) × SledCacheState :=
  match TMap.lookup st.primary cacheKey with
  | some entry =>
    let entry' := { entry with lastAccessed := now }
    if touchWriteOk then
      (.ok (some entry'.audioData),
       { st with primary := TMap.insert st.primary cacheKey entry'
                 hitCount := st.hitCount + 1 })
    else
      (.error (.databaseError "insert failed"), st)
  | none =>
    (.ok none, { st with missCount := st.missCount + 1 })

/-- SledAudioCache::lookup: read the secondary map only. -/
def lookup (st : SledCacheState) (novelId : String) (segmentIndex : Nat)
    (voiceId : String) : Except CacheError (Option String) :=
  .ok (TMap.lookup st.mapping (mappingKey novelId segmentIndex voiceId))

/-- SledAudioCache::exists (renamed, exists is a Lean keyword): primary
containment, no LRU touch. -/
def existsKey (st : SledCacheState) (cacheKey : String) : Bool :=
  TMap.contains st.primary cacheKey

/-- SledAudioCache::remove: db.remove returns the removed value when the
key was present; only then are the mapping record and the byte counter
touched. An absent key falls through to Ok. -/
def remove (st : SledCacheState) (cacheKey : String) :
    Except CacheError Unit × SledCacheState :=
  match TMap.lookup st.primary cacheKey with
  | some entry =>
    (.ok (),
     { st with
       primary := TMap.erase st.primary cacheKey
       mapping := TMap.erase st.mapping
         (mappingKey entry.novelId entry.segmentIndex entry.voiceId)
       currentSize := st.currentSize - entry.sizeBytes })
  | none => (.ok (), st)

end SledCacheState

/-! ## Cache-key derivation (src/application/ports/audio_cache.rs)

generate_cache_key hashes the UTF-8 bytes of the segment text with the
md5 crate, renders the digest with the lowercase-hex formatter, and
appends ":" and the Display form of the voice UUID. The md5 crate
implements RFC 1321; md5Compute below is that algorithm. The uuid crate's
Display is the canonical lowercase hyphenated form; uuidCanonical below
is that rendering of the 16 raw bytes. -/

/-- The per-round left-rotation amounts of RFC 1321. -/
def md5S : List Nat :=
  [7, 12, 17, 22, 7, 12, 17, 22, 7, 12, 17, 22, 7, 12, 17, 22,
   5, 9, 14, 20, 5, 9, 14, 20, 5, 9, 14, 20, 5, 9, 14, 20,
   4, 11, 16, 23, 4, 11, 16, 23, 4, 11, 16, 23, 4, 11, 16, 23,
   6, 10, 15, 21, 6, 10, 15, 21, 6, 10, 15, 21, 6, 10, 15, 21]

/-- The sine-derived additive constants of RFC 1321. -/
def md5K : List Nat :=
  [0xd76aa478, 0xe8c7b756, 0x242070db, 0xc1bdceee,
   0xf57c0faf, 0x4787c62a, 0xa8304613, 0xfd469501,
   0x698098d8, 0x8b44f7af, 0xffff5bb1, 0x895cd7be,
   0x6b901122, 0xfd987193, 0xa679438e, 0x49b40821,
   0xf61e2562, 0xc040b340, 0x265e5a51, 0xe9b6c7aa,
   0xd62f105d, 0x02441453, 0xd8a1e681, 0xe7d3fbc8,
   0x21e1cde6, 0xc33707d6, 0xf4d50d87, 0x455a14ed,
   0xa9e3e905, 0xfcefa3f8, 0x676f02d9, 0x8d2a4c8a,
   0xfffa3942, 0x8771f681, 0x6d9d6122, 0xfde5380c,
   0xa4beea44, 0x4bdecfa9, 0xf6bb4b60, 0xbebfbc70,
   0x289b7ec6, 0xeaa127fa, 0xd4ef3085, 0x04881d05,
   0xd9d4d039, 0xe6db99e5, 0x1fa27cf8, 0xc4ac5665,
   0xf4292244, 0x432aff97, 0xab9423a7, 0xfc93a039,
   0x655b59c3, 0x8f0ccc92, 0xffeff47d, 0x85845dd1,
   0x6fa87e4f, 0xfe2ce6e0, 0xa3014314, 0x4e0811a1,
   0xf7537e82, 0xbd3af235, 0x2ad7d2bb, 0xeb86d391]

/-- Bitwise complement on 32-bit words represented as naturals. -/
def wnot (a : Nat) : Nat := 4294967295 - a % 4294967296

/-- 32-bit left rotation. -/
def rotl32 (x n : Nat) : Nat :=
  (x % 4294967296 * 2 ^ n + x % 4294967296 / 2 ^ (32 - n)) % 4294967296

/-- The k little-endian bytes of n. -/
def leBytes : Nat → Nat → List Nat
  | 0, _ => []
  | k + 1, n => (n % 256) :: leBytes k (n / 256)

/-- A little-endian 32-bit word from a list of bytes. -/
def leWord (bs : List Nat) : Nat := bs.foldr (fun b acc => acc * 256 + b) 0

/-- RFC 1321 padding: append 0x80, zero-fill to 56 mod 64, then the
64-bit little-endian bit length. -/
def md5Pad (msg : List Nat) : List Nat :=
  let len := msg.length
  let zeros := (56 + 64 - (len + 1) % 64) % 64
  msg ++ [0x80] ++ List.replicate zeros 0 ++ leBytes 8 (len * 8 % 2 ^ 64)

/-- Split a byte list into successive 64-byte blocks; structurally
recursive on a fuel bounded by the list length (drop 64 of a non-empty
list is strictly shorter, so the fuel never runs out). -/
def chunksAux : Nat → List Nat → List (List Nat)
  | _, [] => []
  | 0, _ :: _ => []
  | fuel + 1, b :: rest => (b :: rest).take 64 :: chunksAux fuel ((b :: rest).drop 64)

/-- Split a byte list into successive 64-byte blocks. -/
def chunks64 (l : List Nat) : List (List Nat) := chunksAux l.length l

/-- The sixteen message words of one 64-byte block. -/
def blockWords (block : List Nat) : List Nat :=
  (List.range 16).map (fun i => leWord ((block.drop (4 * i)).take 4))

/-- One of the 64 MD5 rounds on the (a, b, c, d) register tuple. -/
def md5Round (M : List Nat) (st : Nat × Nat × Nat × Nat) (i : Nat) :
    Nat × Nat × Nat × Nat :=
  let a := st.1
  let b := st.2.1
  let c := st.2.2.1
  let d := st.2.2.2
  let fg : Nat × Nat :=
    if i < 16 then (b &&& c ||| wnot b &&& d, i)
    else if i < 32 then (d &&& b ||| wnot d &&& c, (5 * i + 1) % 16)
    else if i < 48 then (b ^^^ c ^^^ d, (3 * i + 5) % 16)
    else (c ^^^ (b ||| wnot d), 7 * i % 16)
  let f := (fg.1 + a + md5K.getD i 0 + M.getD fg.2 0) % 4294967296
  (d, (b + rotl32 f (md5S.getD i 0)) % 4294967296, b, c)

/-- Process one 64-byte block: run the 64 rounds and add the result into
the running register tuple. -/
def md5ProcessBlock (st : Nat × Nat × Nat × Nat) (block : List Nat) :
    Nat × Nat × Nat × Nat :=
  let M := blockWords block
  let r := (List.range 64).foldl (md5Round M) st
  ((st.1 + r.1) % 4294967296,
   (st.2.1 + r.2.1) % 4294967296,
   (st.2.2.1 + r.2.2.1) % 4294967296,
   (st.2.2.2 + r.2.2.2) % 4294967296)

/-- md5::compute: the RFC 1321 digest (16 bytes) of a byte message. -/
def md5Compute (msg : List Nat) : List Nat :=
  let fin := (chunks64 (md5Pad msg)).foldl md5ProcessBlock
    (0x67452301, 0xefcdab89, 0x98badcfe, 0x10325476)
  leBytes 4 fin.1 ++ leBytes 4 fin.2.1 ++ leBytes 4 fin.2.2.1 ++ leBytes 4 fin.2.2.2

/-- Lowercase hexadecimal digit. -/
def hexDigitChar (n : Nat) : Char :=
  if n < 10 then Char.ofNat (48 + n) else Char.ofNat (87 + n)

/-- Two lowercase hex digits of one byte. -/
def byteToHex (b : Nat) : List Char := [hexDigitChar (b / 16), hexDigitChar (b % 16)]

/-- The lowercase-hex rendering of a byte string, as the LowerHex
formatter of the md5 crate produces for a digest. -/
def bytesToHexLower (bs : List Nat) : List Char := (bs.map byteToHex).flatten

/-- UTF-8 encoding of one scalar value (as Rust str::as_bytes yields). -/
def utf8EncodeChar (c : Char) : List Nat :=
  let n := c.toNat
  if n < 128 then [n]
  else if n < 2048 then [192 + n / 64, 128 + n % 64]
  else if n < 65536 then [224 + n / 4096, 128 + n / 64 % 64, 128 + n % 64]
  else [240 + n / 262144, 128 + n / 4096 % 64, 128 + n / 64 % 64, 128 + n % 64]

/-- UTF-8 encoding of a string given as its characters. -/
def utf8Encode (s : List Char) : List Nat := (s.map utf8EncodeChar).flatten

/-- A UUID value: its 16 raw bytes. -/
structure Uuid where
  bytes : List Nat
deriving DecidableEq, Repr

/-- The uuid crate's Display rendering: lowercase hex in the canonical
8-4-4-4-12 hyphenated groups. -/
def uuidCanonical (u : Uuid) : List Char :=
  bytesToHexLower (u.bytes.take 4) ++ ['-'] ++
  bytesToHexLower ((u.bytes.drop 4).take 2) ++ ['-'] ++
  bytesToHexLower ((u.bytes.drop 6).take 2) ++ ['-'] ++
  bytesToHexLower ((u.bytes.drop 8).take 2) ++ ['-'] ++
  bytesToHexLower (u.bytes.drop 10)

/-- generate_cache_key (src/application/ports/audio_cache.rs): lowercase
hex MD5 of the UTF-8 bytes of the segment text, a colon, then the
Display form of the voice id. -/
def generateCacheKey (segmentContent : List Char) (voiceId : Uuid) : List Char :=
  bytesToHexLower (md5Compute (utf8Encode segmentContent)) ++ [':'] ++
  uuidCanonical voiceId

/-- generate_cache_key at the String level used by the handler and worker
models, with the voice id already rendered in its Display form. -/
def generateCacheKeyStr (segmentContent : String) (voiceIdStr : String) : String :=
  String.mk (bytesToHexLower (md5Compute (utf8Encode segmentContent.data))) ++
  ":" ++ voiceIdStr

/-! ## Application layer (src/application) -/

inductive AppError where
  | validation (msg : String)
  | notFound (entity id : String)
  | internal (msg : String)
deriving DecidableEq, Repr

def sessionErrorMessage : SessionError → String
  | .notFound id => "Session not found: " ++ id
  | .alreadyExists id => "Session already exists: " ++ id

/-- A catalog text segment (find_segments_by_indices row). -/
structure TextSegment where
  novelId : String
  index : Nat
  content : String
  charCount : Nat
deriving DecidableEq, Repr

structure TaskInfo where
  taskId : String
  segmentIndex : Nat
  state : TaskState
deriving DecidableEq, Repr

structure SubmitInferCommand where
  sessionId : String
  segmentIndices : List Nat
deriving Repr

/-! ### SubmitInfer (src/application/commands/handlers/infer_command_handlers.rs)

The per-index loop of SubmitInferHandler::handle. segments is the catalog
answer for the requested indices; fresh is the stream of Uuid::new_v4
task ids, indexed by how many tasks were created before; cache probing is
audio_cache.exists on the healthy sled store. The loop aborts the whole
call with a validation error at the first requested index with no
matching segment; a cache hit yields the synthetic cached-novel-index
entry and creates no task. -/
def submitInferLoop (sessionId novelId voiceId : String)
    (segments : List TextSegment) (cache : SledCacheState)
    (fresh : Nat → String) (now : Nat) :
    List Nat → Nat → Except AppError (List TaskInfo × List InferenceTask)
  | [], _ => .ok ([], [])
  | idx :: rest, created =>
    match segments.find? (fun s => s.index = idx) with
    | none => .error (.validation ("Invalid segment index: " ++ toString idx))
    | some seg =>
      let cacheKey := generateCacheKeyStr seg.content voiceId
      if SledCacheState.existsKey cache cacheKey then
        match submitInferLoop sessionId novelId voiceId segments cache fresh now
          rest created with
        | .error e => .error e
        | .ok (infos, ts) =>
          .ok ({ taskId := "cached-" ++ novelId ++ "-" ++ toString idx
                 segmentIndex := idx
                 state := .ready } :: infos, ts)
      else
        let task := InferenceTask.mkNew (fresh created) sessionId novelId voiceId
          idx seg.content now
        match submitInferLoop sessionId novelId voiceId segments cache fresh now
          rest (created + 1) with
        | .error e => .error e
        | .ok (infos, ts) =>
          .ok ({ taskId := task.taskId, segmentIndex := idx, state := .pending } :: infos,
               task :: ts)

/-- SubmitInferHandler::handle. The handler holds no event publisher, so
the run publishes no event; the task-manager component of the result is
mutated only by the final batch submit, which is skipped on any error
and when no task was created. -/
def submitInferHandle (sm : SessionManagerState) (tm : TaskManagerState)
    (cache : SledCacheState) (segments : List TextSegment)
    (fresh : Nat → String) (cmd : SubmitInferCommand) (now : Nat) :
    Except AppError (List TaskInfo) × TaskManagerState :=
  match SessionManagerState.get sm cmd.sessionId with
  | .error _ => (.error (.notFound "Session" cmd.sessionId), tm)
  | .ok session =>
    match submitInferLoop cmd.sessionId session.novelId session.voiceId segments
      cache fresh now cmd.segmentIndices 0 with
    | .error e => (.error e, tm)
    | .ok (infos, tasks) =>
      let tm' := if tasks.isEmpty then tm else (TaskManagerState.submit tm tasks).2
      (.ok infos, tm')

/-! ### Seek and CloseSession
(src/application/commands/handlers/session_command_handlers.rs) -/

structure SeekCommand where
  sessionId : String
  segmentIndex : Nat
deriving Repr

structure SeekResponse where
  sessionId : String
  currentIndex : Nat
  cancelledCount : Nat
deriving DecidableEq, Repr

/-- SeekHandler::handle: validate the session, cancel its pending tasks,
update the current index, and report the cancellation count. -/
def seekHandle (sm : SessionManagerState) (tm : TaskManagerState)
    (cmd : SeekCommand) (now : Nat) :
    Except AppError SeekResponse × SessionManagerState × TaskManagerState :=
  match SessionManagerState.get sm cmd.sessionId with
  | .error _ => (.error (.notFound "Session" cmd.sessionId), sm, tm)
  | .ok _ =>
    let r := TaskManagerState.cancelPending tm cmd.sessionId now
    match SessionManagerState.updateIndex sm cmd.sessionId cmd.segmentIndex now with
    | .error e => (.error (.internal (sessionErrorMessage e)), sm, r.2)
    | .ok sm' =>
      (.ok { sessionId := cmd.sessionId
             currentIndex := cmd.segmentIndex
             cancelledCount := r.1 }, sm', r.2)

structure CloseSessionCommand where
  sessionId : String
deriving Repr

structure CloseSessionResponse where
  sessionId : String
deriving DecidableEq, Repr

/-- CloseSessionHandler::handle: cancel pending tasks, clean up the task
table, publish SessionClosed on the session plane, then close the session
(propagating not-found with the question-mark operator, which skips the
final channel unregistration on that error path). -/
def closeSessionHandle (sm : SessionManagerState) (tm : TaskManagerState)
    (ep : EventPublisherState) (cmd : CloseSessionCommand) (now : Nat) :
    Except AppError CloseSessionResponse ×
      SessionManagerState × TaskManagerState × EventPublisherState :=
  let tm1 := (TaskManagerState.cancelPending tm cmd.sessionId now).2
  let tm2 := TaskManagerState.cleanupSession tm1 cmd.sessionId
  let ep1 := EventPublisherState.publishSessionClosed ep cmd.sessionId "client_close"
  match SessionManagerState.close sm cmd.sessionId with
  | .error _ => (.error (.notFound "Session" cmd.sessionId), sm, tm2, ep1)
  | .ok sm' =>
    (.ok { sessionId := cmd.sessionId }, sm', tm2,
     EventPublisherState.unregisterSession ep1 cmd.sessionId)

/-! ## Inference worker (src/infrastructure/worker/infer_worker.rs)

InferWorker::process_task, as a small-step control-flow graph over the
task-manager and event-publisher state. The external collaborators are
snapshots of the outcome each call site observes: the two is_valid reads
(checkpoints 1 and 3), the cache probe (Ok(Some) versus anything else),
the voice lookup, the TTS call, and the cache write. Each step performs
at most one task-state mutation, exactly the one the corresponding code
region performs. -/

inductive VoiceLookupResult where
  | found
  | missing
  | dbError (msg : String)
deriving DecidableEq, Repr

structure WorkerEnv where
  sessionValidPre : Bool
  cacheHit : Bool
  voiceLookup : VoiceLookupResult
  ttsOk : Bool
  ttsErrMsg : String
  sessionValidPost : Bool
  putOk : Bool
  putErrMsg : String
deriving Repr

inductive WPhase where
  | start
  | voiceRes
  | ttsCall
  | postTts
  | cacheWrite
  | done
deriving DecidableEq, Repr

structure WorkerState where
  phase : WPhase
  snapshot : Option InferenceTask
  tm : TaskManagerState
  ep : EventPublisherState

/-- One region of InferWorker::process_task. The start region runs the
task fetch, checkpoint 1 (is_cancelled), the session-validity check, the
cache probe (on a hit: set Ready, publish, return), and otherwise the
transition to Inferring with its publish; the later regions are the voice
resolution, the TTS call, checkpoint 3, and the cache write. -/
def workerStep (env : WorkerEnv) (taskId : String) (now : Nat)
    (ws : WorkerState) : WorkerState :=
  match ws.phase with
  | .start =>
    match TaskManagerState.getTask ws.tm taskId with
    | none => { ws with phase := .done }
    | some task =>
      if TaskManagerState.isCancelled ws.tm taskId then { ws with phase := .done }
      else if !env.sessionValidPre then { ws with phase := .done }
      else if env.cacheHit then
        let tm' := (match TaskManagerState.setState ws.tm taskId .ready now with
          | .ok t => t
          | .error _ => ws.tm)
        { phase := .done
          snapshot := some task
          tm := tm'
          ep := EventPublisherState.publishTaskReady ws.ep taskId task.sessionId
            task.segmentIndex }
      else
        match TaskManagerState.setState ws.tm taskId .inferring now with
        | .error _ => { ws with phase := .done, snapshot := some task }
        | .ok tm' =>
          { phase := .voiceRes
            snapshot := some task
            tm := tm'
            ep := EventPublisherState.publishTaskInferring ws.ep taskId task.sessionId
              task.segmentIndex }
  | .voiceRes =>
    match ws.snapshot with
    | none => { ws with phase := .done }
    | some task =>
      match env.voiceLookup with
      | .found => { ws with phase := .ttsCall }
      | .missing =>
        let tm' := (match TaskManagerState.setFailed ws.tm taskId "Voice not found" now with
          | .ok t => t
          | .error _ => ws.tm)
        { ws with
          phase := .done
          tm := tm'
          ep := EventPublisherState.publishTaskFailed ws.ep taskId task.sessionId
            task.segmentIndex "Voice not found" }
      | .dbError msg =>
        let failMsg := "Database error: " ++ msg
        let tm' := (match TaskManagerState.setFailed ws.tm taskId failMsg now with
          | .ok t => t
          | .error _ => ws.tm)
        { ws with
          phase := .done
          tm := tm'
          ep := EventPublisherState.publishTaskFailed ws.ep taskId task.sessionId
            task.segmentIndex failMsg }
  | .ttsCall =>
    match ws.snapshot with
    | none => { ws with phase := .done }
    | some task =>
      if env.ttsOk then { ws with phase := .postTts }
      else
        let failMsg := "TTS error: " ++ env.ttsErrMsg
        let tm' := (match TaskManagerState.setFailed ws.tm taskId failMsg now with
          | .ok t => t
          | .error _ => ws.tm)
        { ws with
          phase := .done
          tm := tm'
          ep := EventPublisherState.publishTaskFailed ws.ep taskId task.sessionId
            task.segmentIndex failMsg }
  | .postTts =>
    if env.sessionValidPost then { ws with phase := .cacheWrite }
    else { ws with phase := .done }
  | .cacheWrite =>
    match ws.snapshot with
    | none => { ws with phase := .done }
    | some task =>
      if env.putOk then
        let tm' := (match TaskManagerState.setState ws.tm taskId .ready now with
          | .ok t => t
          | .error _ => ws.tm)
        { ws with
          phase := .done
          tm := tm'
          ep := EventPublisherState.publishTaskReady ws.ep taskId task.sessionId
            task.segmentIndex }
      else
        let failMsg := "Cache error: " ++ env.putErrMsg
        let tm' := (match TaskManagerState.setFailed ws.tm taskId failMsg now with
          | .ok t => t
          | .error _ => ws.tm)
        { ws with
          phase := .done
          tm := tm'
          ep := EventPublisherState.publishTaskFailed ws.ep taskId task.sessionId
            task.segmentIndex failMsg }
  | .done => ws

/-- The five successive worker states of one process_task run (after the
fifth step the run is always in the done phase). -/
def workerRun (env : WorkerEnv) (taskId : String) (now : Nat)
    (tm : TaskManagerState) (ep : EventPublisherState) : List WorkerState :=
  let s0 : WorkerState := { phase := .start, snapshot := none, tm := tm, ep := ep }
  let s1 := workerStep env taskId now s0
  let s2 := workerStep env taskId now s1
  let s3 := workerStep env taskId now s2
  let s4 := workerStep env taskId now s3
  let s5 := workerStep env taskId now s4
  [s0, s1, s2, s3, s4, s5]

/-- The sequence of states of the processed task observed along one
process_task run. -/
def workerTaskStates (env : WorkerEnv) (taskId : String) (now : Nat)
    (tm : TaskManagerState) (ep : EventPublisherState) : List (Option TaskState) :=
  (workerRun env taskId now tm ep).map (fun ws => TaskManagerState.getState ws.tm taskId)

/-! ## Text segmenter (src/domain/text_segmenter.rs)

Strings are lists of chars here (Rust iterates chars()); str::trim uses
the Unicode White_Space property, reproduced below; str::lines splits at
a line feed or carriage return plus line feed, with an optional final
line ending. -/

/-- Rust char::is_whitespace: the Unicode White_Space code points. -/
def isRustWhitespace (c : Char) : Bool :=
  c.toNat = 0x09 || c.toNat = 0x0A || c.toNat = 0x0B || c.toNat = 0x0C ||
  c.toNat = 0x0D || c.toNat = 0x20 || c.toNat = 0x85 || c.toNat = 0xA0 ||
  c.toNat = 0x1680 || (decide (0x2000 ≤ c.toNat) && decide (c.toNat ≤ 0x200A)) ||
  c.toNat = 0x2028 || c.toNat = 0x2029 || c.toNat = 0x202F ||
  c.toNat = 0x205F || c.toNat = 0x3000

/-- str::trim. -/
def trimChars (s : List Char) : List Char :=
  ((s.dropWhile isRustWhitespace).reverse.dropWhile isRustWhitespace).reverse

/-- Split at every line feed; a list of n line feeds yields n + 1 pieces. -/
def splitOnNewline : List Char → List (List Char)
  | [] => [[]]
  | c :: rest =>
    if c = '\n' then [] :: splitOnNewline rest
    else
      match splitOnNewline rest with
      | p :: ps => (c :: p) :: ps
      | [] => [[c]]

/-- Remove one carriage return at the end of a piece that was followed by
a line feed in the source. -/
def stripTrailingCR (l : List Char) : List Char :=
  if l.getLast? = some '\r' then l.dropLast else l

/-- str::lines: split at line feeds, strip the carriage return of each
piece that was followed by a line feed, and drop the empty piece a
trailing line ending produces. -/
def rustLines (s : List Char) : List (List Char) :=
  let ps := splitOnNewline s
  let front := ps.dropLast.map stripTrailingCR
  match ps.getLast? with
  | none => []
  | some last => if last.isEmpty then front else front ++ [last]

/-- is_strong_delimiter. -/
def isStrongDelimiter (c : Char) : Bool :=
  c == '。' || c == '？' || c == '！' || c == '.' || c == '?' || c == '!'

/-- is_weak_delimiter. -/
def isWeakDelimiter (c : Char) : Bool :=
  c == '，' || c == '；' || c == '：' || c == ',' || c == ';' || c == ':'

/-- is_trivial_segment character class: ASCII and curly double/single
quotes, space, tab. -/
def isTrivialChar (c : Char) : Bool :=
  c == '"' || c == '“' || c == '”' ||
  c == '\'' || c == '‘' || c == '’' || c == ' ' || c == '\t'

/-- is_trivial_segment. -/
def isTrivialSegment (s : List Char) : Bool := s.all isTrivialChar

/-- The scan of split_by_delimiters: push each char into the running
buffer, bump the running count, split on a strong delimiter always and on
a weak delimiter once the count has reached min_chars; emitted pieces are
trimmed and dropped when empty; both buffer and count reset on a split. -/
def splitByDelimitersGo (minChars : Nat) :
    List Char → List Char → Nat → List (List Char)
  | [], current, _ =>
    let t := trimChars current
    if t.isEmpty then [] else [t]
  | ch :: rest, current, charCount =>
    let current' := current ++ [ch]
    let charCount' := charCount + 1
    let shouldSplit := isStrongDelimiter ch ||
      (isWeakDelimiter ch && decide (minChars ≤ charCount'))
    if shouldSplit then
      let t := trimChars current'
      (if t.isEmpty then [] else [t]) ++ splitByDelimitersGo minChars rest [] 0
    else
      splitByDelimitersGo minChars rest current' charCount'

/-- split_by_delimiters. -/
def splitByDelimiters (text : List Char) (minChars : Nat) : List (List Char) :=
  splitByDelimitersGo minChars text [] 0

/-- The walk of merge_until_min_chars, with the emitted segments kept in
reverse order in acc: accumulate pieces into a working buffer, emit it
once its char count reaches min_chars, and append a leftover tail to the
previously emitted segment (or emit it standalone if none). -/
def mergeGo (minChars : Nat) :
    List (List Char) → List Char → List (List Char) → List (List Char)
  | [], buffer, acc =>
    if buffer.isEmpty then acc.reverse
    else
      match acc with
      | last :: accRest => ((last ++ buffer) :: accRest).reverse
      | [] => [buffer]
  | seg :: rest, buffer, acc =>
    let buffer' := buffer ++ seg
    if minChars ≤ buffer'.length then mergeGo minChars rest [] (buffer' :: acc)
    else mergeGo minChars rest buffer' acc

/-- merge_until_min_chars. -/
def mergeUntilMinChars (segments : List (List Char)) (minChars : Nat) :
    List (List Char) :=
  if segments.isEmpty then segments else mergeGo minChars segments [] []

/-- split_line: split on delimiters, then merge short pieces. -/
def splitLine (text : List Char) (minChars : Nat) : List (List Char) :=
  mergeUntilMinChars (splitByDelimiters text minChars) minChars

/-- The body of the sentence loop of segment_text, on the segments
accumulated in reverse: trim the sentence, skip it when empty, append a
trivial (quote/whitespace-only) sentence to the previous segment when one
exists (and drop it otherwise, the Vec::last_mut-is-None case), push any
other sentence. -/
def stAdd (segsRev : List (List Char)) (sentence : List Char) : List (List Char) :=
  let t := trimChars sentence
  if t.isEmpty then segsRev
  else if isTrivialSegment t then
    match segsRev with
    | [] => []
    | last :: rest => (last ++ t) :: rest
  else t :: segsRev

/-- segment_text: split into trimmed non-empty lines, split each line,
and fold the sentence loop over every sentence of every line. -/
def segmentText (text : List Char) (minChars : Nat) : List (List Char) :=
  let ls := ((rustLines text).map trimChars).filter (fun l => !l.isEmpty)
  (ls.foldl (fun segsRev line => (splitLine line minChars).foldl stAdd segsRev) []).reverse

/-- The non-whitespace content of a list of segments, for the content
preservation statement. -/
def nonWsContent (l : List (List Char)) : List Char :=
  l.flatten.filter (fun c => !isRustWhitespace c)

/-! # Map lemmas -/

namespace TMap

theorem lookup_insert_self {α : Type} (m : TMap α) (k : String) (v : α) :
    lookup (insert m k v) k = some v := by
  induction m with
  | nil => simp [insert, lookup]
  | cons hd tl ih =>
    by_cases h : hd.1 = k
    · simp [insert, h, lookup]
    · simp [insert, h, lookup, ih]

theorem lookup_insert_ne {α : Type} (m : TMap α) (k k' : String) (v : α)
    (h : k' ≠ k) : lookup (insert m k v) k' = lookup m k' := by
  have hne : ¬(k = k') := fun e => h e.symm
  induction m with
  | nil => simp [insert, lookup, hne]
  | cons hd tl ih =>
    by_cases hh : hd.1 = k
    · subst hh
      simp [insert, lookup, hne]
    · simp only [insert, if_neg hh, lookup]
      by_cases hk' : hd.1 = k'
      · simp [hk']
      · simp [hk', ih]

theorem lookup_not_mem {α : Type} (m : TMap α) (k : String)
    (h : k ∉ m.map Prod.fst) : lookup m k = none := by
  induction m with
  | nil => rfl
  | cons hd tl ih =>
    simp only [List.map_cons, List.mem_cons] at h
    push_neg at h
    simp only [lookup, if_neg (fun e : hd.1 = k => h.1 e.symm)]
    exact ih h.2

theorem lookup_erase_self {α : Type} (m : TMap α) (k : String)
    (hm : (m.map Prod.fst).Nodup) : lookup (erase m k) k = none := by
  induction m with
  | nil => rfl
  | cons hd tl ih =>
    simp only [List.map_cons, List.nodup_cons] at hm
    by_cases h : hd.1 = k
    · subst h
      simp only [erase, if_pos rfl]
      exact lookup_not_mem tl hd.1 hm.1
    · simp only [erase, if_neg h, lookup, if_neg h]
      exact ih hm.2

theorem lookup_erase_ne {α : Type} (m : TMap α) (k k' : String) (h : k' ≠ k) :
    lookup (erase m k) k' = lookup m k' := by
  induction m with
  | nil => rfl
  | cons hd tl ih =>
    by_cases hh : hd.1 = k
    · subst hh
      have he : erase (hd :: tl) hd.1 = tl := by simp [erase]
      rw [he]
      simp only [lookup]
      rw [if_neg (fun e : hd.1 = k' => h e.symm)]
    · simp only [erase, if_neg hh, lookup]
      by_cases hk' : hd.1 = k'
      · simp [hk']
      · simp [hk', ih]

theorem lookup_none_erase {α : Type} (m : TMap α) (k k' : String)
    (h : lookup m k' = none) : lookup (erase m k) k' = none := by
  induction m with
  | nil => rfl
  | cons hd tl ih =>
    by_cases hk' : hd.1 = k'
    · simp [lookup, hk'] at h
    · simp only [lookup, if_neg hk'] at h
      by_cases hh : hd.1 = k
      · simpa [erase, hh] using h
      · simp only [erase, if_neg hh, lookup, if_neg hk']
        exact ih h

end TMap
/-! # Claim C10: remove of an absent cache key -/

/-- A small cache state with one stored entry, for witnesses. -/
def sampleEntry : InternalCacheEntry :=
  { audioData := [1, 2, 3]
    sizeBytes := 3
    durationMs := 1000
    contentHash := "h"
    novelId := "n"
    segmentIndex := 0
    voiceId := "v"
    lastAccessed := 1
    createdAt := 1
    sampleRate := some 22050 }

def cacheWithEntry : SledCacheState :=
  { primary := [("k", sampleEntry)]
    mapping := [(SledCacheState.mappingKey "n" 0 "v", "k")]
    currentSize := 3
    maxSize := 100
    hitCount := 0
    missCount := 0 }

/-- C10: for every cache key that is not present in the primary map,
remove returns Ok and leaves the stored entries, the secondary index and
the live byte counter unchanged. -/
theorem remove_absent_key_is_noop (st : SledCacheState) (k : String)
    (h : TMap.lookup st.primary k = none) :
    SledCacheState.remove st k = (.ok (), st) := by
  unfold SledCacheState.remove
  rw [h]

/-- Witness for remove_absent_key_is_noop: removing the absent key "z"
from a cache holding one entry under "k" succeeds and changes nothing. -/
theorem remove_absent_key_is_noop_witness :
    TMap.lookup cacheWithEntry.primary "z" = none ∧
    SledCacheState.remove cacheWithEntry "z" = (.ok (), cacheWithEntry) :=
  ⟨by decide, remove_absent_key_is_noop cacheWithEntry "z" (by decide)⟩

/-! # Claim C2: put of an oversize payload -/

/-- An empty cache bounded at 10 bytes. -/
def tinyCache : SledCacheState :=
  { primary := []
    mapping := []
    currentSize := 0
    maxSize := 10
    hitCount := 0
    missCount := 0 }

theorem evictLru_empty (st : SledCacheState) (h : st.primary = []) :
    SledCacheState.evictLru st = st := by
  unfold SledCacheState.evictLru SledCacheState.findOldest
  rw [h]
  rfl

theorem putEvictLoop_oversize_empty (st : SledCacheState) (size : Nat)
    (hempty : st.primary = []) (hover : st.currentSize + size > st.maxSize) :
    ∀ fuel, SledCacheState.putEvictLoop fuel st size = none := by
  intro fuel
  induction fuel with
  | zero => simp [SledCacheState.putEvictLoop, hover]
  | succ f ih =>
    unfold SledCacheState.putEvictLoop
    rw [if_pos hover, evictLru_empty st hempty]
    exact ih

/-- C2 (code bug): put of an 11-byte payload into an empty cache bounded
at 10 bytes never returns, whatever fuel the eviction loop is given: the
loop guard current_size + size > max_size stays true because evict_lru on
an empty cache removes nothing, so the source's while loop spins forever
instead of performing the single oversize insert the claim describes. -/
theorem put_oversize_spins_forever (fuel : Nat) (md : CacheMetadata) (now : Int) :
    SledCacheState.put fuel tinyCache "k" (List.replicate 11 0) md now = none := by
  have h : SledCacheState.putEvictLoop fuel tinyCache 11 = none :=
    putEvictLoop_oversize_empty tinyCache 11 rfl (by simp [tinyCache]) fuel
  simp only [SledCacheState.put, List.length_replicate]
  rw [h]

/-! # Claim C3: get when the LRU-touch write-back fails -/

/-- C3 counterexample: on the concrete one-entry cache, a failing
write-back of the touched entry makes get return a database error rather
than the stored bytes, refuting the claim that a write failure on the
read path never turns the read into an error. -/
theorem get_touch_failure_is_error :
    (SledCacheState.get cacheWithEntry "k" false 5).1 =
      .error (.databaseError "insert failed") ∧
    (SledCacheState.get cacheWithEntry "k" false 5).1 ≠
      .ok (some sampleEntry.audioData) ∧
    TMap.lookup cacheWithEntry.primary "k" = some sampleEntry := by
  have h1 : (SledCacheState.get cacheWithEntry "k" false 5).1 =
      .error (.databaseError "insert failed") := rfl
  refine ⟨h1, ?_, rfl⟩
  rw [h1]
  intro hcon
  cases hcon

/-- C3 amended: for a present key, get returns the stored bytes exactly
when the LRU-touch write-back succeeds; when that write fails, the error
is propagated and the read fails without returning the bytes. -/
theorem get_hit_touch_semantics (st : SledCacheState) (k : String)
    (e : InternalCacheEntry) (now : Int)
    (h : TMap.lookup st.primary k = some e) :
    (SledCacheState.get st k true now).1 = .ok (some e.audioData) ∧
    (SledCacheState.get st k false now).1 =
      .error (.databaseError "insert failed") := by
  constructor
  · simp [SledCacheState.get, h]
  · simp [SledCacheState.get, h]

/-- Witness for get_hit_touch_semantics at the concrete one-entry cache. -/
theorem get_hit_touch_semantics_witness :
    TMap.lookup cacheWithEntry.primary "k" = some sampleEntry ∧
    (SledCacheState.get cacheWithEntry "k" true 5).1 =
      .ok (some sampleEntry.audioData) :=
  ⟨by decide, (get_hit_touch_semantics cacheWithEntry "k" sampleEntry 5 (by decide)).1⟩

/-! # Further map lemmas: key sets under insert and erase -/

namespace TMap

theorem mem_keys_insert {α : Type} (m : TMap α) (k x : String) (v : α) :
    x ∈ (insert m k v).map Prod.fst ↔ x = k ∨ x ∈ m.map Prod.fst := by
  induction m with
  | nil => simp [insert]
  | cons hd tl ih =>
    by_cases h : hd.1 = k
    · subst h
      simp [insert]
    · simp only [insert, if_neg h, List.map_cons, List.mem_cons, ih]
      tauto

theorem keys_insert_nodup {α : Type} (m : TMap α) (k : String) (v : α)
    (h : (m.map Prod.fst).Nodup) : ((insert m k v).map Prod.fst).Nodup := by
  induction m with
  | nil => simp [insert]
  | cons hd tl ih =>
    simp only [List.map_cons, List.nodup_cons] at h
    by_cases hh : hd.1 = k
    · subst hh
      simpa [insert, List.nodup_cons] using h
    · simp only [insert, if_neg hh, List.map_cons, List.nodup_cons]
      refine ⟨?_, ih h.2⟩
      intro hmem
      rcases (mem_keys_insert tl k hd.1 v).mp hmem with he | hmem'
      · exact hh he
      · exact h.1 hmem'

theorem keys_erase_sublist {α : Type} (m : TMap α) (k : String) :
    ((erase m k).map Prod.fst).Sublist (m.map Prod.fst) := by
  induction m with
  | nil => simp [erase]
  | cons hd tl ih =>
    by_cases hh : hd.1 = k
    · simp only [erase, if_pos hh, List.map_cons]
      exact (List.sublist_cons_self _ _)
    · simp only [erase, if_neg hh, List.map_cons]
      exact ih.cons₂ _

theorem keys_erase_nodup {α : Type} (m : TMap α) (k : String)
    (h : (m.map Prod.fst).Nodup) : ((erase m k).map Prod.fst).Nodup :=
  (keys_erase_sublist m k).nodup h

theorem lookup_foldl_erase_none {α : Type} (ids : List String) (m : TMap α)
    (tid : String) (h : lookup m tid = none) :
    lookup (ids.foldl (fun acc t => erase acc t) m) tid = none := by
  induction ids generalizing m with
  | nil => exact h
  | cons x rest ih =>
    simp only [List.foldl_cons]
    exact ih (erase m x) (lookup_none_erase m x tid h)

theorem keys_foldl_erase_nodup {α : Type} (ids : List String) (m : TMap α)
    (h : (m.map Prod.fst).Nodup) :
    (((ids.foldl (fun acc t => erase acc t) m).map Prod.fst)).Nodup := by
  induction ids generalizing m with
  | nil => exact h
  | cons x rest ih =>
    simp only [List.foldl_cons]
    exact ih (erase m x) (keys_erase_nodup m x h)

theorem lookup_foldl_erase {α : Type} (ids : List String) (m : TMap α)
    (tid : String) (hmem : tid ∈ ids) (hnd : (m.map Prod.fst).Nodup) :
    lookup (ids.foldl (fun acc t => erase acc t) m) tid = none := by
  induction ids generalizing m with
  | nil => cases hmem
  | cons x rest ih =>
    simp only [List.foldl_cons]
    rcases List.mem_cons.mp hmem with rfl | hmem'
    · exact lookup_foldl_erase_none rest (erase m tid) tid
        (lookup_erase_self m tid hnd)
    · exact ih (erase m x) hmem' (keys_erase_nodup m x hnd)

end TMap

/-! # cancel_pending structure lemmas -/

namespace TaskManagerState

theorem cancelStep_frame (now : Nat) (acc : Nat × TaskManagerState) (tid : String) :
    (cancelStep now acc tid).2.sessionTasks = acc.2.sessionTasks ∧
    (cancelStep now acc tid).2.queue = acc.2.queue ∧
    (cancelStep now acc tid).2.queueCap = acc.2.queueCap := by
  unfold cancelStep
  cases TMap.lookup acc.2.tasks tid with
  | none => exact ⟨rfl, rfl, rfl⟩
  | some t =>
    by_cases h : t.state = TaskState.pending <;> simp [h]

theorem cancelFold_frame (now : Nat) (l : List String) (acc : Nat × TaskManagerState) :
    ((l.foldl (cancelStep now) acc).2.sessionTasks = acc.2.sessionTasks) ∧
    ((l.foldl (cancelStep now) acc).2.queue = acc.2.queue) ∧
    ((l.foldl (cancelStep now) acc).2.queueCap = acc.2.queueCap) := by
  induction l generalizing acc with
  | nil => exact ⟨rfl, rfl, rfl⟩
  | cons x rest ih =>
    simp only [List.foldl_cons]
    have h1 := cancelStep_frame now acc x
    have h2 := ih (cancelStep now acc x)
    exact ⟨h2.1.trans h1.1, h2.2.1.trans h1.2.1, h2.2.2.trans h1.2.2⟩

theorem cancelStep_keys_nodup (now : Nat) (acc : Nat × TaskManagerState) (tid : String)
    (h : (acc.2.tasks.map Prod.fst).Nodup) :
    ((cancelStep now acc tid).2.tasks.map Prod.fst).Nodup := by
  unfold cancelStep
  cases TMap.lookup acc.2.tasks tid with
  | none => exact h
  | some t =>
    by_cases hp : t.state = TaskState.pending
    · simp [hp, TMap.keys_insert_nodup _ _ _ h]
    · simpa [hp] using h

theorem cancelFold_keys_nodup (now : Nat) (l : List String) (acc : Nat × TaskManagerState)
    (h : (acc.2.tasks.map Prod.fst).Nodup) :
    (((l.foldl (cancelStep now) acc).2.tasks.map Prod.fst)).Nodup := by
  induction l generalizing acc with
  | nil => exact h
  | cons x rest ih =>
    simp only [List.foldl_cons]
    exact ih (cancelStep now acc x) (cancelStep_keys_nodup now acc x h)

theorem cancelPending_sessionTasks (tm : TaskManagerState) (sid : String) (now : Nat) :
    (cancelPending tm sid now).2.sessionTasks = tm.sessionTasks := by
  unfold cancelPending
  cases TMap.lookup tm.sessionTasks sid with
  | none => rfl
  | some ids => exact (cancelFold_frame now ids (0, tm)).1

theorem cancelPending_keys_nodup (tm : TaskManagerState) (sid : String) (now : Nat)
    (h : (tm.tasks.map Prod.fst).Nodup) :
    ((cancelPending tm sid now).2.tasks.map Prod.fst).Nodup := by
  unfold cancelPending
  cases TMap.lookup tm.sessionTasks sid with
  | none => exact h
  | some ids => exact cancelFold_keys_nodup now ids (0, tm) h

end TaskManagerState

/-! # Claim C9: CloseSession on an absent session id -/

/-- C9: when the session id is absent, CloseSessionHandler::handle
returns the not-found error, yet has already run cancel_pending and
cleanup_session (the session's id set is gone and every task it
referenced is removed), has already published SessionClosed on the
session plane (delivered when a channel is registered), and has not
unregistered the event channel: a registered channel survives the error
path. -/
theorem close_session_absent_semantics (sm : SessionManagerState)
    (tm : TaskManagerState) (ep : EventPublisherState) (cmd : CloseSessionCommand)
    (now : Nat)
    (habs : TMap.lookup sm.sessions cmd.sessionId = none)
    (hndT : (tm.tasks.map Prod.fst).Nodup)
    (hndS : (tm.sessionTasks.map Prod.fst).Nodup) :
    (closeSessionHandle sm tm ep cmd now).1 =
      .error (.notFound "Session" cmd.sessionId) ∧
    (closeSessionHandle sm tm ep cmd now).2.1 = sm ∧
    TMap.lookup (closeSessionHandle sm tm ep cmd now).2.2.1.sessionTasks
      cmd.sessionId = none ∧
    (∀ tid, tid ∈ (TMap.lookup tm.sessionTasks cmd.sessionId).getD [] →
      TMap.lookup (closeSessionHandle sm tm ep cmd now).2.2.1.tasks tid = none) ∧
    (∀ ch, TMap.lookup ep.sessionChannels cmd.sessionId = some ch →
      TMap.lookup (closeSessionHandle sm tm ep cmd now).2.2.2.sessionChannels
        cmd.sessionId =
        some (ch ++ [WsEvent.sessionClosed cmd.sessionId "client_close"])) ∧
    (TMap.lookup ep.sessionChannels cmd.sessionId = none →
      (closeSessionHandle sm tm ep cmd now).2.2.2 = ep) := by
  have hclose : SessionManagerState.close sm cmd.sessionId =
      .error (.notFound cmd.sessionId) := by
    unfold SessionManagerState.close
    rw [habs]
  have hr : closeSessionHandle sm tm ep cmd now =
      (.error (.notFound "Session" cmd.sessionId), sm,
       TaskManagerState.cleanupSession
         (TaskManagerState.cancelPending tm cmd.sessionId now).2 cmd.sessionId,
       EventPublisherState.publishSessionClosed ep cmd.sessionId "client_close") := by
    unfold closeSessionHandle
    rw [hclose]
  rw [hr]
  set tm1 := (TaskManagerState.cancelPending tm cmd.sessionId now).2 with htm1
  have hst : tm1.sessionTasks = tm.sessionTasks :=
    TaskManagerState.cancelPending_sessionTasks tm cmd.sessionId now
  have hnd1 : (tm1.tasks.map Prod.fst).Nodup :=
    TaskManagerState.cancelPending_keys_nodup tm cmd.sessionId now hndT
  refine ⟨rfl, rfl, ?_, ?_, ?_, ?_⟩
  · unfold TaskManagerState.cleanupSession
    rw [hst]
    cases hs : TMap.lookup tm.sessionTasks cmd.sessionId with
    | none => simpa [hst] using hs
    | some ids =>
      exact TMap.lookup_erase_self tm.sessionTasks cmd.sessionId hndS
  · intro tid hmem
    unfold TaskManagerState.cleanupSession
    rw [hst]
    cases hs : TMap.lookup tm.sessionTasks cmd.sessionId with
    | none => simp [hs] at hmem
    | some ids =>
      simp only
      rw [hs] at hmem
      simp only [Option.getD_some] at hmem
      exact TMap.lookup_foldl_erase ids tm1.tasks tid hmem hnd1
  · intro ch hch
    unfold EventPublisherState.publishSessionClosed EventPublisherState.publishToSession
    rw [hch]
    exact TMap.lookup_insert_self _ _ _
  · intro hch
    unfold EventPublisherState.publishSessionClosed EventPublisherState.publishToSession
    rw [hch]

/-- A concrete scenario for the C9 witness: no session "s1", one pending
task "t1" recorded under "s1", and a registered (empty) event channel. -/
def smAbsent : SessionManagerState := { sessions := [] }

def taskT1 : InferenceTask :=
  InferenceTask.mkNew "t1" "s1" "n1" "v1" 0 "hello" 3

def tmWithT1 : TaskManagerState :=
  { tasks := [("t1", taskT1)]
    sessionTasks := [("s1", ["t1"])]
    queue := ["t1"]
    queueCap := 1000 }

def epWithS1 : EventPublisherState := { sessionChannels := [("s1", [])] }

/-- Witness for close_session_absent_semantics on the concrete scenario. -/
theorem close_session_absent_semantics_witness :
    TMap.lookup smAbsent.sessions "s1" = none ∧
    (closeSessionHandle smAbsent tmWithT1 epWithS1 ⟨"s1"⟩ 7).1 =
      .error (.notFound "Session" "s1") ∧
    TMap.lookup
      (closeSessionHandle smAbsent tmWithT1 epWithS1 ⟨"s1"⟩ 7).2.2.1.tasks "t1" =
      none ∧
    TMap.lookup
      (closeSessionHandle smAbsent tmWithT1 epWithS1 ⟨"s1"⟩ 7).2.2.2.sessionChannels
      "s1" = some [WsEvent.sessionClosed "s1" "client_close"] := by
  have h := close_session_absent_semantics smAbsent tmWithT1 epWithS1 ⟨"s1"⟩ 7
    (by decide) (by decide) (by decide)
  exact ⟨by decide, h.1, h.2.2.2.1 "t1" (by decide), h.2.2.2.2.1 [] (by decide)⟩

/-! # cancel_pending characterization (for claims C6 and C1) -/

namespace TaskManagerState

/-- The tasks of tm that the cancel_pending loop counts: present with
current state Pending. -/
def isPendingIn (tm : TaskManagerState) (tid : String) : Bool :=
  match TMap.lookup tm.tasks tid with
  | some t => t.state = TaskState.pending
  | none => false

theorem cancelFold_spec (now : Nat) (l : List String) (acc : Nat × TaskManagerState)
    (hnd : l.Nodup) :
    ((l.foldl (cancelStep now) acc).1 =
      acc.1 + (l.filter (isPendingIn acc.2)).length) ∧
    (∀ tid t, TMap.lookup acc.2.tasks tid = some t →
      TMap.lookup (l.foldl (cancelStep now) acc).2.tasks tid =
        (if tid ∈ l ∧ t.state = TaskState.pending
         then some { t with state := .cancelled, completedAt := some now }
         else some t)) ∧
    (∀ tid, TMap.lookup acc.2.tasks tid = none →
      TMap.lookup (l.foldl (cancelStep now) acc).2.tasks tid = none) := by
  induction l generalizing acc with
  | nil =>
    refine ⟨by simp, ?_, ?_⟩
    · intro tid t ht
      simpa using ht
    · intro tid ht
      simpa using ht
  | cons x rest ih =>
    have hx_not : x ∉ rest := (List.nodup_cons.mp hnd).1
    have hrest : rest.Nodup := (List.nodup_cons.mp hnd).2
    simp only [List.foldl_cons]
    cases hx : TMap.lookup acc.2.tasks x with
    | none =>
      have hacc : cancelStep now acc x = acc := by
        unfold cancelStep
        rw [hx]
      rw [hacc]
      rcases ih acc hrest with ⟨hcnt, hsome, hnone⟩
      refine ⟨?_, ?_, hnone⟩
      · rw [hcnt]
        have : isPendingIn acc.2 x = false := by
          unfold isPendingIn
          rw [hx]
        simp [List.filter_cons, this]
      · intro tid t ht
        have htne : tid ≠ x := fun he => by
          rw [he, hx] at ht
          cases ht
        rw [hsome tid t ht]
        simp [List.mem_cons, htne]
    | some t =>
      by_cases hp : t.state = TaskState.pending
      · have hacc : cancelStep now acc x =
            (acc.1 + 1,
             { acc.2 with tasks := (TMap.insert acc.2.tasks x { t with state := .cancelled, completedAt := some now }) }) := by
          unfold cancelStep
          rw [hx]
          simp [hp]
        rw [hacc]
        set acc' : Nat × TaskManagerState :=
          (acc.1 + 1,
           { acc.2 with tasks := (TMap.insert acc.2.tasks x { t with state := .cancelled, completedAt := some now }) }) with hacc'
        rcases ih acc' hrest with ⟨hcnt, hsome, hnone⟩
        have hsame : ∀ tid, tid ≠ x →
            TMap.lookup acc'.2.tasks tid = TMap.lookup acc.2.tasks tid := by
          intro tid htne
          exact TMap.lookup_insert_ne acc.2.tasks x tid _ htne
        refine ⟨?_, ?_, ?_⟩
        · rw [hcnt]
          have hpend : isPendingIn acc.2 x = true := by
            unfold isPendingIn
            rw [hx]
            simpa using hp
          have hfeq : rest.filter (isPendingIn acc'.2) =
              rest.filter (isPendingIn acc.2) := by
            apply List.filter_congr
            intro tid htid
            have htne : tid ≠ x := fun he => hx_not (he ▸ htid)
            unfold isPendingIn
            rw [hsame tid htne]
          rw [hfeq]
          simp [List.filter_cons, hpend]
          omega
        · intro tid t' ht'
          by_cases htne : tid = x
          · subst htne
            rw [hx] at ht'
            cases ht'
            have hlk : TMap.lookup acc'.2.tasks tid =
                some { t with state := .cancelled, completedAt := some now } :=
              TMap.lookup_insert_self acc.2.tasks tid _
            rw [hsome tid _ hlk]
            simp [hx_not, hp]
          · have hlk : TMap.lookup acc'.2.tasks tid = some t' := by
              rw [hsame tid htne]
              exact ht'
            rw [hsome tid t' hlk]
            simp [List.mem_cons, htne]
        · intro tid ht
          have htne : tid ≠ x := fun he => by
            rw [he, hx] at ht
            cases ht
          apply hnone
          rw [hsame tid htne]
          exact ht
      · have hacc : cancelStep now acc x = acc := by
          unfold cancelStep
          rw [hx]
          simp [hp]
        rw [hacc]
        rcases ih acc hrest with ⟨hcnt, hsome, hnone⟩
        refine ⟨?_, ?_, hnone⟩
        · rw [hcnt]
          have : isPendingIn acc.2 x = false := by
            unfold isPendingIn
            rw [hx]
            simpa using hp
          simp [List.filter_cons, this]
        · intro tid t' ht'
          by_cases htne : tid = x
          · subst htne
            rw [hx] at ht'
            injection ht' with he
            subst he
            rw [hsome tid t hx]
            simp [hx_not, hp]
          · rw [hsome tid t' ht']
            simp [List.mem_cons, htne]

/-- cancel_pending summarized: the count is the number of the session's
recorded task ids whose task is currently Pending; exactly those tasks
become Cancelled with completed_at stamped; all other tasks are
untouched. -/
theorem cancelPending_spec (tm : TaskManagerState) (sid : String) (now : Nat)
    (hnd : ((TMap.lookup tm.sessionTasks sid).getD []).Nodup) :
    ((cancelPending tm sid now).1 =
      (((TMap.lookup tm.sessionTasks sid).getD []).filter (isPendingIn tm)).length) ∧
    (∀ tid t, TMap.lookup tm.tasks tid = some t →
      TMap.lookup (cancelPending tm sid now).2.tasks tid =
        (if tid ∈ (TMap.lookup tm.sessionTasks sid).getD [] ∧
            t.state = TaskState.pending
         then some { t with state := .cancelled, completedAt := some now }
         else some t)) ∧
    (∀ tid, TMap.lookup tm.tasks tid = none →
      TMap.lookup (cancelPending tm sid now).2.tasks tid = none) := by
  unfold cancelPending
  cases hs : TMap.lookup tm.sessionTasks sid with
  | none =>
    refine ⟨by simp, ?_, ?_⟩
    · intro tid t ht
      simpa using ht
    · intro tid ht
      simpa using ht
  | some ids =>
    rw [hs] at hnd
    simp only [Option.getD_some] at hnd ⊢
    simpa using cancelFold_spec now ids (0, tm) hnd

end TaskManagerState

/-! # Claim C6: Seek -/

/-- C6: for a present session id, Seek transitions exactly the session's
Pending tasks to Cancelled (stamping completed_at), leaves tasks in
Inferring or any terminal state unchanged, sets the session's current
index, and returns the session id, the new index and the number of
transitions; for an absent session id it returns the not-found error and
changes nothing. -/
theorem seek_semantics (sm : SessionManagerState) (tm : TaskManagerState)
    (cmd : SeekCommand) (now : Nat) :
    (∀ s, TMap.lookup sm.sessions cmd.sessionId = some s →
      ((TMap.lookup tm.sessionTasks cmd.sessionId).getD []).Nodup →
      ((seekHandle sm tm cmd now).1 =
        .ok { sessionId := cmd.sessionId
              currentIndex := cmd.segmentIndex
              cancelledCount :=
                (((TMap.lookup tm.sessionTasks cmd.sessionId).getD []).filter
                  (TaskManagerState.isPendingIn tm)).length } ∧
       TMap.lookup (seekHandle sm tm cmd now).2.1.sessions cmd.sessionId =
         some { s with currentIndex := cmd.segmentIndex, lastActivity := now } ∧
       (∀ tid t, TMap.lookup tm.tasks tid = some t →
         TMap.lookup (seekHandle sm tm cmd now).2.2.tasks tid =
           (if tid ∈ (TMap.lookup tm.sessionTasks cmd.sessionId).getD [] ∧
               t.state = TaskState.pending
            then some { t with state := .cancelled, completedAt := some now }
            else some t)) ∧
       (∀ tid, TMap.lookup tm.tasks tid = none →
         TMap.lookup (seekHandle sm tm cmd now).2.2.tasks tid = none))) ∧
    (TMap.lookup sm.sessions cmd.sessionId = none →
      seekHandle sm tm cmd now = (.error (.notFound "Session" cmd.sessionId), sm, tm)) := by
  constructor
  · intro s hs hnd
    have hget : SessionManagerState.get sm cmd.sessionId = .ok s := by
      unfold SessionManagerState.get
      rw [hs]
    have hupd : SessionManagerState.updateIndex sm cmd.sessionId cmd.segmentIndex now =
        .ok { sessions := (TMap.insert sm.sessions cmd.sessionId
                { s with currentIndex := cmd.segmentIndex, lastActivity := now }) } := by
      unfold SessionManagerState.updateIndex
      rw [hs]
    have hr : seekHandle sm tm cmd now =
        (.ok { sessionId := cmd.sessionId
               currentIndex := cmd.segmentIndex
               cancelledCount := (TaskManagerState.cancelPending tm cmd.sessionId now).1 },
         { sessions := (TMap.insert sm.sessions cmd.sessionId
             { s with currentIndex := cmd.segmentIndex, lastActivity := now }) },
         (TaskManagerState.cancelPending tm cmd.sessionId now).2) := by
      unfold seekHandle
      rw [hget, hupd]
    rcases TaskManagerState.cancelPending_spec tm cmd.sessionId now hnd with
      ⟨hcnt, hsome, hnone⟩
    refine ⟨?_, ?_, ?_, ?_⟩
    · rw [hr]
      simp only [hcnt]
    · rw [hr]
      exact TMap.lookup_insert_self _ _ _
    · intro tid t ht
      rw [hr]
      exact hsome tid t ht
    · intro tid ht
      rw [hr]
      exact hnone tid ht
  · intro hs
    have hget : SessionManagerState.get sm cmd.sessionId =
        .error (.notFound cmd.sessionId) := by
      unfold SessionManagerState.get
      rw [hs]
    unfold seekHandle
    rw [hget]

/-- A concrete scenario for the C6 witness: session "s1" with two Pending
tasks and one Inferring task. -/
def sess1 : Session :=
  { id := "s1", novelId := "n1", voiceId := "v1"
    currentIndex := 0, createdAt := 0, lastActivity := 0 }

def smWithS1 : SessionManagerState := { sessions := [("s1", sess1)] }

def taskA : InferenceTask := InferenceTask.mkNew "a" "s1" "n1" "v1" 0 "seg zero" 1
def taskB : InferenceTask := InferenceTask.mkNew "b" "s1" "n1" "v1" 1 "seg one" 1
def taskC : InferenceTask :=
  { InferenceTask.mkNew "c" "s1" "n1" "v1" 2 "seg two" 1 with state := .inferring }

def tmSeek : TaskManagerState :=
  { tasks := [("a", taskA), ("b", taskB), ("c", taskC)]
    sessionTasks := [("s1", ["a", "b", "c"])]
    queue := []
    queueCap := 1000 }

/-- Witness for seek_semantics: seeking to index 10 cancels the two
Pending tasks, reports cancelled_count 2, leaves the Inferring task
unchanged and updates the session index. -/
theorem seek_semantics_witness :
    TMap.lookup smWithS1.sessions "s1" = some sess1 ∧
    (seekHandle smWithS1 tmSeek ⟨"s1", 10⟩ 9).1 =
      .ok { sessionId := "s1", currentIndex := 10, cancelledCount := 2 } ∧
    TMap.lookup (seekHandle smWithS1 tmSeek ⟨"s1", 10⟩ 9).2.1.sessions "s1" =
      some { sess1 with currentIndex := 10, lastActivity := 9 } ∧
    TMap.lookup (seekHandle smWithS1 tmSeek ⟨"s1", 10⟩ 9).2.2.tasks "a" =
      some { taskA with state := .cancelled, completedAt := some 9 } ∧
    TMap.lookup (seekHandle smWithS1 tmSeek ⟨"s1", 10⟩ 9).2.2.tasks "c" =
      some taskC := by
  have h := (seek_semantics smWithS1 tmSeek ⟨"s1", 10⟩ 9).1 sess1 (by decide) (by decide)
  refine ⟨by decide, ?_, h.2.1, ?_, ?_⟩
  · rw [h.1]
    rfl
  · rw [h.2.2.1 "a" taskA (by decide)]
    decide
  · rw [h.2.2.1 "c" taskC (by decide)]
    decide

/-! # submit structure lemmas -/

namespace TaskManagerState

theorem submitOne_queue (st : TaskManagerState) (t : InferenceTask) :
    (submitOne st t).queue = st.queue ∨
    (submitOne st t).queue = st.queue ++ [t.taskId] := by
  unfold submitOne
  by_cases h : st.queue.length < st.queueCap
  · right
    simp [h]
  · left
    simp [h]

theorem submit_queue_delta (ts : List InferenceTask) (st : TaskManagerState) :
    ∃ delta, (ts.foldl submitOne st).queue = st.queue ++ delta ∧
      ∀ x ∈ delta, x ∈ ts.map (·.taskId) := by
  induction ts generalizing st with
  | nil => exact ⟨[], by simp, by simp⟩
  | cons t rest ih =>
    simp only [List.foldl_cons]
    rcases ih (submitOne st t) with ⟨delta, hq, hd⟩
    rcases submitOne_queue st t with h | h
    · refine ⟨delta, by rw [hq, h], ?_⟩
      intro x hx
      simp only [List.map_cons, List.mem_cons]
      exact Or.inr (hd x hx)
    · refine ⟨t.taskId :: delta, ?_, ?_⟩
      · rw [hq, h]
        simp
      · intro x hx
        simp only [List.map_cons, List.mem_cons]
        rcases List.mem_cons.mp hx with rfl | hx'
        · exact Or.inl rfl
        · exact Or.inr (hd x hx')

theorem submit_tasks_lookup (ts : List InferenceTask) (st : TaskManagerState)
    (tid : String) (t' : InferenceTask)
    (h : TMap.lookup (ts.foldl submitOne st).tasks tid = some t') :
    TMap.lookup st.tasks tid = some t' ∨ t' ∈ ts := by
  induction ts generalizing st with
  | nil => exact Or.inl h
  | cons t rest ih =>
    simp only [List.foldl_cons] at h
    rcases ih (submitOne st t) h with h1 | h1
    · unfold submitOne at h1
      simp only at h1
      by_cases he : tid = t.taskId
      · subst he
        rw [TMap.lookup_insert_self] at h1
        injection h1 with h2
        subst h2
        exact Or.inr (List.mem_cons_self _ _)
      · rw [TMap.lookup_insert_ne _ _ _ _ he] at h1
        exact Or.inl h1
    · exact Or.inr (List.mem_cons_of_mem _ h1)

end TaskManagerState

/-! # Claims C5 and C7: SubmitInfer -/

/-- The synthetic response entry for a cache hit: task id
cached-novel-index, state Ready, no task behind it. -/
def cachedInfo (novelId : String) (idx : Nat) : TaskInfo :=
  { taskId := "cached-" ++ novelId ++ "-" ++ toString idx
    segmentIndex := idx
    state := .ready }

theorem forall₂_mem_left {α β : Type} {R : α → β → Prop} :
    ∀ {l₁ : List α} {l₂ : List β}, List.Forall₂ R l₁ l₂ →
    ∀ {a}, a ∈ l₁ → ∃ b ∈ l₂, R a b := by
  intro l₁ l₂ h
  induction h with
  | nil => intro a ha; cases ha
  | cons hr _ ih =>
    intro a ha
    rcases List.mem_cons.mp ha with rfl | ha'
    · exact ⟨_, List.mem_cons_self _ _, hr⟩
    · rcases ih ha' with ⟨b, hb, hrb⟩
      exact ⟨b, List.mem_cons_of_mem _ hb, hrb⟩

/-- What a successful SubmitInfer loop yields: response entries line up
with the requested indices, a cached index yields exactly the synthetic
cached entry, and every created task is Pending and belongs to an index
whose key was not in the cache. -/
theorem submitInferLoop_ok_spec (sid nid vid : String)
    (segments : List TextSegment) (cache : SledCacheState)
    (fresh : Nat → String) (now : Nat) :
    ∀ (indices : List Nat) (created : Nat) infos tasks,
    submitInferLoop sid nid vid segments cache fresh now indices created =
      .ok (infos, tasks) →
    List.Forall₂ (fun idx info =>
      ∀ seg, segments.find? (fun x => x.index = idx) = some seg →
        SledCacheState.existsKey cache (generateCacheKeyStr seg.content vid) = true →
        info = cachedInfo nid idx) indices infos ∧
    (∀ t ∈ tasks, t.state = TaskState.pending ∧ ∃ seg,
      segments.find? (fun x => x.index = t.segmentIndex) = some seg ∧
      SledCacheState.existsKey cache (generateCacheKeyStr seg.content vid) = false) := by
  intro indices
  induction indices with
  | nil =>
    intro created infos tasks h
    simp only [submitInferLoop] at h
    injection h with h1
    rw [Prod.mk.injEq] at h1
    obtain ⟨h2, h3⟩ := h1
    subst h2
    subst h3
    exact ⟨List.Forall₂.nil, by intro t ht; cases ht⟩
  | cons idx rest ih =>
    intro created infos tasks h
    unfold submitInferLoop at h
    cases hf : segments.find? (fun x => x.index = idx) with
    | none =>
      rw [hf] at h
      cases h
    | some seg =>
      rw [hf] at h
      dsimp only at h
      by_cases hc : SledCacheState.existsKey cache
          (generateCacheKeyStr seg.content vid) = true
      · rw [if_pos hc] at h
        cases hr : submitInferLoop sid nid vid segments cache fresh now rest created with
        | error e =>
          rw [hr] at h
          cases h
        | ok p =>
          obtain ⟨infos', tasks'⟩ := p
          rw [hr] at h
          injection h with h1
          rw [Prod.mk.injEq] at h1
          obtain ⟨h2, h3⟩ := h1
          subst h2
          subst h3
          obtain ⟨ha, hb⟩ := ih created infos' tasks' hr
          refine ⟨List.Forall₂.cons ?_ ha, hb⟩
          intro seg' hseg' _
          rw [hf] at hseg'
          injection hseg' with he
          subst he
          rfl
      · rw [if_neg hc] at h
        cases hr : submitInferLoop sid nid vid segments cache fresh now rest
            (created + 1) with
        | error e =>
          rw [hr] at h
          cases h
        | ok p =>
          obtain ⟨infos', tasks'⟩ := p
          rw [hr] at h
          injection h with h1
          rw [Prod.mk.injEq] at h1
          obtain ⟨h2, h3⟩ := h1
          subst h2
          subst h3
          obtain ⟨ha, hb⟩ := ih (created + 1) infos' tasks' hr
          constructor
          · refine List.Forall₂.cons ?_ ha
            intro seg' hseg' hkey'
            rw [hf] at hseg'
            injection hseg' with he
            subst he
            exact absurd hkey' hc
          · intro t ht
            rcases List.mem_cons.mp ht with rfl | ht'
            · refine ⟨rfl, seg, ?_, ?_⟩
              · simpa [InferenceTask.mkNew] using hf
              · simpa [InferenceTask.mkNew] using
                  (Bool.not_eq_true _).mp hc
            · exact hb t ht'

/-- A SubmitInfer loop hitting a requested index with no matching segment
aborts the whole call with a validation error. -/
theorem submitInferLoop_invalid (sid nid vid : String)
    (segments : List TextSegment) (cache : SledCacheState)
    (fresh : Nat → String) (now : Nat) :
    ∀ (indices : List Nat) (created : Nat),
    (∃ idx ∈ indices, segments.find? (fun x => x.index = idx) = none) →
    ∃ msg, submitInferLoop sid nid vid segments cache fresh now indices created =
      .error (.validation msg) := by
  intro indices
  induction indices with
  | nil =>
    rintro created ⟨idx, hmem, _⟩
    cases hmem
  | cons x rest ih =>
    rintro created ⟨idx, hmem, hfind⟩
    unfold submitInferLoop
    cases hf : segments.find? (fun s => s.index = x) with
    | none => exact ⟨"Invalid segment index: " ++ toString x, rfl⟩
    | some seg =>
      dsimp only
      have hmem' : idx ∈ rest := by
        rcases List.mem_cons.mp hmem with rfl | h
        · rw [hf] at hfind
          cases hfind
        · exact h
      by_cases hc : SledCacheState.existsKey cache
          (generateCacheKeyStr seg.content vid) = true
      · obtain ⟨msg, hmsg⟩ := ih created ⟨idx, hmem', hfind⟩
        rw [if_pos hc, hmsg]
        exact ⟨msg, rfl⟩
      · obtain ⟨msg, hmsg⟩ := ih (created + 1) ⟨idx, hmem', hfind⟩
        rw [if_neg hc, hmsg]
        exact ⟨msg, rfl⟩

/-- C7: when some requested index maps to no segment, the whole call
returns a validation error and the task-manager state is returned
untouched: no task inserted, nothing added to the per-session index,
nothing enqueued. -/
theorem submit_infer_invalid_index_no_change (sm : SessionManagerState)
    (tm : TaskManagerState) (cache : SledCacheState)
    (segments : List TextSegment) (fresh : Nat → String)
    (cmd : SubmitInferCommand) (now : Nat) (s : Session)
    (hs : TMap.lookup sm.sessions cmd.sessionId = some s)
    (hbad : ∃ idx ∈ cmd.segmentIndices,
      segments.find? (fun x => x.index = idx) = none) :
    ∃ msg, submitInferHandle sm tm cache segments fresh cmd now =
      (.error (.validation msg), tm) := by
  obtain ⟨msg, hmsg⟩ := submitInferLoop_invalid cmd.sessionId s.novelId s.voiceId
    segments cache fresh now cmd.segmentIndices 0 hbad
  have hget : SessionManagerState.get sm cmd.sessionId = .ok s := by
    unfold SessionManagerState.get
    rw [hs]
  refine ⟨msg, ?_⟩
  unfold submitInferHandle
  rw [hget]
  dsimp only
  rw [hmsg]

/-- C5: for a live session and a requested index whose segment's cache
key is present, the response contains the synthetic
cached-novel-index Ready entry; every task the call creates is Pending
and belongs to a different index; every change to the task table comes
from one of those created tasks; and the queue grows only by ids of
those created tasks. The handler holds no event publisher, so no event
is produced anywhere in it. -/
theorem submit_infer_cache_hit (sm : SessionManagerState) (tm : TaskManagerState)
    (cache : SledCacheState) (segments : List TextSegment) (fresh : Nat → String)
    (cmd : SubmitInferCommand) (now : Nat) (s : Session) (seg : TextSegment)
    (idx : Nat) (infos : List TaskInfo)
    (hs : TMap.lookup sm.sessions cmd.sessionId = some s)
    (hseg : segments.find? (fun x => x.index = idx) = some seg)
    (hkey : SledCacheState.existsKey cache
      (generateCacheKeyStr seg.content s.voiceId) = true)
    (hmem : idx ∈ cmd.segmentIndices)
    (hok : (submitInferHandle sm tm cache segments fresh cmd now).1 = .ok infos) :
    cachedInfo s.novelId idx ∈ infos ∧
    (∃ tasks : List InferenceTask,
      (∀ t ∈ tasks, t.state = TaskState.pending ∧ t.segmentIndex ≠ idx) ∧
      (∀ tid t', TMap.lookup
          (submitInferHandle sm tm cache segments fresh cmd now).2.tasks tid =
            some t' →
        TMap.lookup tm.tasks tid = some t' ∨ t' ∈ tasks) ∧
      (∃ delta,
        (submitInferHandle sm tm cache segments fresh cmd now).2.queue =
          tm.queue ++ delta ∧
        ∀ x ∈ delta, x ∈ tasks.map (·.taskId))) := by
  have hget : SessionManagerState.get sm cmd.sessionId = .ok s := by
    unfold SessionManagerState.get
    rw [hs]
  cases hr : submitInferLoop cmd.sessionId s.novelId s.voiceId segments cache
      fresh now cmd.segmentIndices 0 with
  | error e =>
    exfalso
    unfold submitInferHandle at hok
    rw [hget] at hok
    dsimp only at hok
    rw [hr] at hok
    cases hok
  | ok p =>
    obtain ⟨infos0, tasks⟩ := p
    have hh : submitInferHandle sm tm cache segments fresh cmd now =
        (.ok infos0,
         if tasks.isEmpty then tm else (TaskManagerState.submit tm tasks).2) := by
      unfold submitInferHandle
      rw [hget]
      dsimp only
      rw [hr]
    have hinfos : infos0 = infos := by
      rw [hh] at hok
      injection hok
    subst hinfos
    obtain ⟨ha, hb⟩ := submitInferLoop_ok_spec cmd.sessionId s.novelId s.voiceId
      segments cache fresh now cmd.segmentIndices 0 infos0 tasks hr
    have htasks : ∀ t ∈ tasks, t.state = TaskState.pending ∧ t.segmentIndex ≠ idx := by
      intro t ht
      obtain ⟨hp, seg', hfind', hmiss⟩ := hb t ht
      refine ⟨hp, fun he => ?_⟩
      rw [he, hseg] at hfind'
      injection hfind' with he2
      subst he2
      rw [hkey] at hmiss
      cases hmiss
    constructor
    · obtain ⟨info, hinfo, hri⟩ := forall₂_mem_left ha hmem
      rw [hri seg hseg hkey] at hinfo
      exact hinfo
    · refine ⟨tasks, htasks, ?_, ?_⟩
      · intro tid t' hlk
        rw [hh] at hlk
        by_cases hemp : tasks.isEmpty
        · rw [if_pos hemp] at hlk
          exact Or.inl hlk
        · rw [if_neg hemp] at hlk
          exact TaskManagerState.submit_tasks_lookup tasks tm tid t' hlk
      · rw [hh]
        by_cases hemp : tasks.isEmpty
        · rw [if_pos hemp]
          exact ⟨[], by simp, by simp⟩
        · rw [if_neg hemp]
          exact TaskManagerState.submit_queue_delta tasks tm

/-! Concrete SubmitInfer scenarios for the C5 and C7 witnesses. -/

def segA : TextSegment :=
  { novelId := "n1", index := 0, content := "hello", charCount := 5 }

def freshW : Nat → String := fun n => "task-" ++ toString n

def tmEmpty : TaskManagerState :=
  { tasks := [], sessionTasks := [], queue := [], queueCap := 1000 }

def cacheHello : SledCacheState :=
  { primary := [(generateCacheKeyStr "hello" "v1", sampleEntry)]
    mapping := []
    currentSize := 3
    maxSize := 100
    hitCount := 0
    missCount := 0 }

/-- Witness for submit_infer_invalid_index_no_change: requesting indices
0 and 7 of a novel whose catalog answer holds only segment 0 fails the
whole call with a validation error and returns the task manager
untouched. -/
theorem submit_infer_invalid_index_no_change_witness :
    TMap.lookup smWithS1.sessions "s1" = some sess1 ∧
    (∃ msg, submitInferHandle smWithS1 tmSeek tinyCache [segA] freshW
      ⟨"s1", [0, 7]⟩ 5 = (.error (.validation msg), tmSeek)) :=
  ⟨by decide,
   submit_infer_invalid_index_no_change smWithS1 tmSeek tinyCache [segA] freshW
     ⟨"s1", [0, 7]⟩ 5 sess1 (by decide) ⟨7, by decide, by decide⟩⟩

/-- Witness for submit_infer_cache_hit: with segment 0's key already in
the cache, the call returns exactly the synthetic cached-n1-0 Ready
entry and the synthetic entry is in the response. -/
theorem submit_infer_cache_hit_witness :
    SledCacheState.existsKey cacheHello (generateCacheKeyStr "hello" "v1") = true ∧
    (submitInferHandle smWithS1 tmEmpty cacheHello [segA] freshW ⟨"s1", [0]⟩ 5).1 =
      .ok [cachedInfo "n1" 0] ∧
    cachedInfo "n1" 0 ∈ [cachedInfo "n1" 0] := by
  have h := submit_infer_cache_hit smWithS1 tmEmpty cacheHello [segA] freshW
    ⟨"s1", [0]⟩ 5 sess1 segA 0 [cachedInfo "n1" 0]
    (by decide) (by decide) (by decide) (by decide) rfl
  exact ⟨by decide, rfl, h.1⟩

/-! # Claim C1: the task-state transition DAG -/

/-- A worker environment whose cache probe hits. -/
def envHit : WorkerEnv :=
  { sessionValidPre := true, cacheHit := true, voiceLookup := .found
    ttsOk := true, ttsErrMsg := "", sessionValidPost := true
    putOk := true, putErrMsg := "" }

def epEmpty : EventPublisherState := { sessionChannels := [] }

/-- A task table holding one already-Ready task. -/
def tmReady : TaskManagerState :=
  { tasks := [("t1", { taskT1 with state := .ready })]
    sessionTasks := [("s1", ["t1"])]
    queue := []
    queueCap := 1000 }

/-- C1 counterexample: the claimed DAG does not hold as stated. First, a
worker run on a Pending task whose cache probe hits performs the direct
transition Pending to Ready (the claim's explicit non-example): the
cache probe precedes the transition to Inferring in process_task, and on
a hit set_state(Ready) fires while the task is still Pending. Second,
set_state is one of the quantified operations and overwrites terminal
states without rejection: set_state(t1, Pending) on a Ready task
succeeds and the task re-enters Pending. -/
theorem task_state_dag_counterexample :
    TaskManagerState.getState tmWithT1 "t1" = some .pending ∧
    workerTaskStates envHit "t1" 9 tmWithT1 epEmpty =
      [some .pending, some .ready, some .ready,
       some .ready, some .ready, some .ready] ∧
    TaskManagerState.getState tmReady "t1" = some .ready ∧
    (TaskManagerState.setState tmReady "t1" .pending 9).map
      (fun tmR => TaskManagerState.getState tmR "t1") = .ok (some .pending) :=
  ⟨by decide, by decide, by decide, rfl⟩

/-- An edge of the amended per-task DAG: unchanged, Pending to Inferring,
Pending to Ready (worker cache hit), Inferring to Ready, or Inferring to
Failed. Pending to Cancelled is the cancel_pending transition, handled in
the companion conjunct of the amended theorem. -/
def workerEdge (a b : Option TaskState) : Prop :=
  a = b ∨
  (a = some .pending ∧ b = some .inferring) ∨
  (a = some .pending ∧ b = some .ready) ∨
  (a = some .inferring ∧ b = some .ready) ∨
  (a = some .inferring ∧ b = some .failed)

theorem cancelStep_state (now : Nat) (acc : Nat × TaskManagerState)
    (tid' tid : String) :
    TaskManagerState.getState (TaskManagerState.cancelStep now acc tid').2 tid =
      TaskManagerState.getState acc.2 tid ∨
    (TaskManagerState.getState acc.2 tid = some .pending ∧
     TaskManagerState.getState (TaskManagerState.cancelStep now acc tid').2 tid =
       some .cancelled) := by
  unfold TaskManagerState.cancelStep
  cases hlk : TMap.lookup acc.2.tasks tid' with
  | none => exact Or.inl rfl
  | some t =>
    dsimp only
    by_cases hp : t.state = TaskState.pending
    · rw [if_pos hp]
      by_cases he : tid = tid'
      · subst he
        right
        constructor
        · unfold TaskManagerState.getState
          rw [hlk]
          simp [hp]
        · unfold TaskManagerState.getState
          simp [TMap.lookup_insert_self]
      · left
        unfold TaskManagerState.getState
        simp only
        rw [TMap.lookup_insert_ne _ _ _ _ he]
    · rw [if_neg hp]
      exact Or.inl rfl

theorem cancelFold_state (now : Nat) (l : List String)
    (acc : Nat × TaskManagerState) (tid : String) :
    TaskManagerState.getState (l.foldl (TaskManagerState.cancelStep now) acc).2 tid =
      TaskManagerState.getState acc.2 tid ∨
    (TaskManagerState.getState acc.2 tid = some .pending ∧
     TaskManagerState.getState (l.foldl (TaskManagerState.cancelStep now) acc).2 tid =
       some .cancelled) := by
  induction l generalizing acc with
  | nil => exact Or.inl rfl
  | cons x rest ih =>
    simp only [List.foldl_cons]
    rcases ih (TaskManagerState.cancelStep now acc x) with h1 | h1 <;>
      rcases cancelStep_state now acc x tid with h2 | h2
    · exact Or.inl (h1.trans h2)
    · exact Or.inr ⟨h2.1, h1.trans h2.2⟩
    · exact Or.inr ⟨h2.symm.trans h1.1, h1.2⟩
    · exact Or.inr ⟨h2.1, h1.2⟩

/-- C1 amended: under the operations the program actually performs on a
task - the worker's processing run (started on a task that is Pending,
already Cancelled, or already cleaned up) together with cancel_pending -
the per-task state changes only along Pending to Inferring, Pending to
Ready (cache hit), Pending to Cancelled (cancel_pending), Inferring to
Ready, and Inferring to Failed; no transition leaves a terminal state.
Raw set_state/set_failed remain unguarded overwrites (see the
counterexample), so the DAG holds for the program's call discipline, not
for arbitrary set_state arguments. -/
theorem worker_cancel_amended_dag :
    (∀ (env : WorkerEnv) (taskId : String) (now : Nat) (tm : TaskManagerState)
       (ep : EventPublisherState),
      (TaskManagerState.getState tm taskId = some .pending ∨
       TaskManagerState.getState tm taskId = some .cancelled ∨
       TaskManagerState.getState tm taskId = none) →
      List.Chain' workerEdge (workerTaskStates env taskId now tm ep)) ∧
    (∀ (tm : TaskManagerState) (sid : String) (now : Nat) (tid : String),
      TaskManagerState.getState (TaskManagerState.cancelPending tm sid now).2 tid =
        TaskManagerState.getState tm tid ∨
      (TaskManagerState.getState tm tid = some .pending ∧
       TaskManagerState.getState (TaskManagerState.cancelPending tm sid now).2 tid =
         some .cancelled)) := by
  constructor
  · intro env taskId now tm ep h
    obtain ⟨vpre, chit, vlk, tok, terr, vpost, pok, perr⟩ := env
    unfold workerTaskStates workerRun
    cases hlk : TMap.lookup tm.tasks taskId with
    | none =>
      have hn : TaskManagerState.getState tm taskId = none := by
        unfold TaskManagerState.getState
        rw [hlk]
        rfl
      simp [workerStep, TaskManagerState.getTask, hlk, List.chain'_cons, workerEdge]
    | some t =>
      have hts : t.state = .pending ∨ t.state = .cancelled := by
        unfold TaskManagerState.getState at h
        rw [hlk] at h
        simp only [Option.map_some'] at h
        rcases h with h | h | h
        · exact Or.inl (by injection h)
        · exact Or.inr (by injection h)
        · cases h
      rcases hts with hts | hts
      · cases vpre <;> cases chit <;> cases vlk <;> cases tok <;> cases vpost <;>
          cases pok <;>
          simp [workerStep, TaskManagerState.getTask, TaskManagerState.isCancelled,
            TaskManagerState.setState, TaskManagerState.setFailed,
            TaskManagerState.getState, TaskState.isTerminal, hlk, hts,
            TMap.lookup_insert_self, List.chain'_cons, workerEdge]
      · cases vpre <;> cases chit <;> cases vlk <;> cases tok <;> cases vpost <;>
          cases pok <;>
          simp [workerStep, TaskManagerState.getTask, TaskManagerState.isCancelled,
            TaskManagerState.setState, TaskManagerState.setFailed,
            TaskManagerState.getState, TaskState.isTerminal, hlk, hts,
            TMap.lookup_insert_self, List.chain'_cons, workerEdge]
  · intro tm sid now tid
    unfold TaskManagerState.cancelPending
    cases TMap.lookup tm.sessionTasks sid with
    | none => exact Or.inl rfl
    | some ids => exact cancelFold_state now ids (0, tm) tid

/-- An environment for a full successful worker run: cache miss, voice
found, TTS succeeds, session still valid, cache write succeeds. -/
def envMissOk : WorkerEnv :=
  { sessionValidPre := true, cacheHit := false, voiceLookup := .found
    ttsOk := true, ttsErrMsg := "", sessionValidPost := true
    putOk := true, putErrMsg := "" }

/-- Witness for worker_cancel_amended_dag: a full successful run on the
concrete Pending task observes Pending, then Inferring through the TTS
phases, then Ready - and the whole trace is a chain of amended-DAG
edges; cancel_pending on the same starting table flips the Pending task
to Cancelled. -/
theorem worker_cancel_amended_dag_witness :
    (TaskManagerState.getState tmWithT1 "t1" = some .pending ∧
     workerTaskStates envMissOk "t1" 9 tmWithT1 epEmpty =
       [some .pending, some .inferring, some .inferring,
        some .inferring, some .inferring, some .ready] ∧
     List.Chain' workerEdge (workerTaskStates envMissOk "t1" 9 tmWithT1 epEmpty)) ∧
    TaskManagerState.getState
      (TaskManagerState.cancelPending tmWithT1 "s1" 9).2 "t1" = some .cancelled := by
  exact ⟨⟨by decide, by decide,
    worker_cancel_amended_dag.1 envMissOk "t1" 9 tmWithT1 epEmpty
      (Or.inl (by decide))⟩, by decide⟩

/-! # Claim C8: the cache-key format -/

/-- A lowercase hexadecimal digit. -/
def isLowerHexDigit (c : Char) : Bool :=
  ('0' ≤ c && c ≤ '9') || ('a' ≤ c && c ≤ 'f')

theorem leBytes_length (k n : Nat) : (leBytes k n).length = k := by
  induction k generalizing n with
  | zero => rfl
  | succ k ih => simp [leBytes, ih]

theorem leBytes_lt (k n : Nat) : ∀ b ∈ leBytes k n, b < 256 := by
  induction k generalizing n with
  | zero => intro b hb; cases hb
  | succ k ih =>
    intro b hb
    rcases List.mem_cons.mp hb with rfl | hb'
    · exact Nat.mod_lt _ (by decide)
    · exact ih (n / 256) b hb'

theorem md5Compute_length (msg : List Nat) : (md5Compute msg).length = 16 := by
  unfold md5Compute
  simp [List.length_append, leBytes_length]

theorem md5Compute_bytes_lt (msg : List Nat) : ∀ b ∈ md5Compute msg, b < 256 := by
  unfold md5Compute
  intro b hb
  simp only [List.append_assoc, List.mem_append] at hb
  rcases hb with h | h | h | h <;> exact leBytes_lt _ _ b h

theorem bytesToHexLower_length (bs : List Nat) :
    (bytesToHexLower bs).length = 2 * bs.length := by
  induction bs with
  | nil => rfl
  | cons b rest ih =>
    have hsplit : bytesToHexLower (b :: rest) =
        byteToHex b ++ bytesToHexLower rest := by
      simp [bytesToHexLower]
    rw [hsplit, List.length_append, ih]
    simp [byteToHex]
    omega

theorem hexDigitChar_isLowerHex (n : Nat) (h : n < 16) :
    isLowerHexDigit (hexDigitChar n) = true := by
  interval_cases n <;> decide

theorem byteToHex_isLowerHex (b : Nat) (hb : b < 256) :
    ∀ c ∈ byteToHex b, isLowerHexDigit c = true := by
  intro c hc
  rcases List.mem_cons.mp hc with rfl | hc'
  · exact hexDigitChar_isLowerHex (b / 16) (by omega)
  · rcases List.mem_cons.mp hc' with rfl | hc''
    · exact hexDigitChar_isLowerHex (b % 16) (Nat.mod_lt _ (by decide))
    · cases hc''

theorem bytesToHexLower_isLowerHex (bs : List Nat) (hbs : ∀ b ∈ bs, b < 256) :
    ∀ c ∈ bytesToHexLower bs, isLowerHexDigit c = true := by
  induction bs with
  | nil => intro c hc; cases hc
  | cons b rest ih =>
    intro c hc
    simp only [bytesToHexLower, List.map_cons, List.flatten_cons,
      List.mem_append] at hc
    rcases hc with hc | hc
    · exact byteToHex_isLowerHex b (hbs b (List.mem_cons_self _ _)) c hc
    · exact ih (fun x hx => hbs x (List.mem_cons_of_mem _ hx)) c hc

/-- C8: generate_cache_key is the lowercase-hex MD5 digest of the UTF-8
bytes of the text (32 lowercase hex characters, pinned against the RFC
1321 test vectors for the empty string and for abc), then a colon, then
the canonical 36-character hyphenated lowercase rendering of the 16
UUID bytes in 8-4-4-4-12 groups. As a Lean function of its two
arguments, the derivation is pure by construction. -/
theorem generate_cache_key_spec (text : List Char) (u : Uuid)
    (hu16 : u.bytes.length = 16) (hub : ∀ b ∈ u.bytes, b < 256) :
    generateCacheKey text u =
      bytesToHexLower (md5Compute (utf8Encode text)) ++ [':'] ++ uuidCanonical u ∧
    (bytesToHexLower (md5Compute (utf8Encode text))).length = 32 ∧
    (∀ c ∈ bytesToHexLower (md5Compute (utf8Encode text)),
      isLowerHexDigit c = true) ∧
    (generateCacheKey text u).take 32 =
      bytesToHexLower (md5Compute (utf8Encode text)) ∧
    (generateCacheKey text u).drop 32 = ':' :: uuidCanonical u ∧
    (uuidCanonical u).length = 36 ∧
    (∃ g1 g2 g3 g4 g5 : List Char,
      g1.length = 8 ∧ g2.length = 4 ∧ g3.length = 4 ∧ g4.length = 4 ∧
      g5.length = 12 ∧
      (∀ c ∈ g1 ++ g2 ++ g3 ++ g4 ++ g5, isLowerHexDigit c = true) ∧
      uuidCanonical u = g1 ++ ['-'] ++ g2 ++ ['-'] ++ g3 ++ ['-'] ++ g4 ++
        ['-'] ++ g5) ∧
    md5Compute (utf8Encode []) =
      [0xd4, 0x1d, 0x8c, 0xd9, 0x8f, 0x00, 0xb2, 0x04,
       0xe9, 0x80, 0x09, 0x98, 0xec, 0xf8, 0x42, 0x7e] ∧
    md5Compute (utf8Encode ['a', 'b', 'c']) =
      [0x90, 0x01, 0x50, 0x98, 0x3c, 0xd2, 0x4f, 0xb0,
       0xd6, 0x96, 0x3f, 0x7d, 0x28, 0xe1, 0x7f, 0x72] := by
  have hdigestlen : (bytesToHexLower (md5Compute (utf8Encode text))).length = 32 := by
    rw [bytesToHexLower_length, md5Compute_length]
  have hdigesthex : ∀ c ∈ bytesToHexLower (md5Compute (utf8Encode text)),
      isLowerHexDigit c = true :=
    bytesToHexLower_isLowerHex _ (md5Compute_bytes_lt _)
  have hmem_take : ∀ b ∈ u.bytes.take 4, b < 256 :=
    fun b hb => hub b (List.mem_of_mem_take hb)
  have hmem_d4 : ∀ b ∈ (u.bytes.drop 4).take 2, b < 256 :=
    fun b hb => hub b (List.mem_of_mem_drop (List.mem_of_mem_take hb))
  have hmem_d6 : ∀ b ∈ (u.bytes.drop 6).take 2, b < 256 :=
    fun b hb => hub b (List.mem_of_mem_drop (List.mem_of_mem_take hb))
  have hmem_d8 : ∀ b ∈ (u.bytes.drop 8).take 2, b < 256 :=
    fun b hb => hub b (List.mem_of_mem_drop (List.mem_of_mem_take hb))
  have hmem_d10 : ∀ b ∈ u.bytes.drop 10, b < 256 :=
    fun b hb => hub b (List.mem_of_mem_drop hb)
  have hg1len : (bytesToHexLower (u.bytes.take 4)).length = 8 := by
    rw [bytesToHexLower_length]
    simp [List.length_take, hu16]
  have hg2len : (bytesToHexLower ((u.bytes.drop 4).take 2)).length = 4 := by
    rw [bytesToHexLower_length]
    simp [List.length_take, List.length_drop, hu16]
  have hg3len : (bytesToHexLower ((u.bytes.drop 6).take 2)).length = 4 := by
    rw [bytesToHexLower_length]
    simp [List.length_take, List.length_drop, hu16]
  have hg4len : (bytesToHexLower ((u.bytes.drop 8).take 2)).length = 4 := by
    rw [bytesToHexLower_length]
    simp [List.length_take, List.length_drop, hu16]
  have hg5len : (bytesToHexLower (u.bytes.drop 10)).length = 12 := by
    rw [bytesToHexLower_length]
    simp [List.length_drop, hu16]
  have hulen : (uuidCanonical u).length = 36 := by
    unfold uuidCanonical
    simp only [List.length_append, List.length_cons, List.length_nil,
      hg1len, hg2len, hg3len, hg4len, hg5len]
  refine ⟨rfl, hdigestlen, hdigesthex, ?_, ?_, hulen, ?_, by decide, by decide⟩
  · unfold generateCacheKey
    rw [List.append_assoc, List.take_left' hdigestlen]
  · unfold generateCacheKey
    rw [List.append_assoc, List.drop_left' hdigestlen]
    rfl
  · refine ⟨bytesToHexLower (u.bytes.take 4),
      bytesToHexLower ((u.bytes.drop 4).take 2),
      bytesToHexLower ((u.bytes.drop 6).take 2),
      bytesToHexLower ((u.bytes.drop 8).take 2),
      bytesToHexLower (u.bytes.drop 10),
      hg1len, hg2len, hg3len, hg4len, hg5len, ?_, rfl⟩
    intro c hc
    simp only [List.append_assoc, List.mem_append] at hc
    rcases hc with h | h | h | h | h
    · exact bytesToHexLower_isLowerHex _ hmem_take c h
    · exact bytesToHexLower_isLowerHex _ hmem_d4 c h
    · exact bytesToHexLower_isLowerHex _ hmem_d6 c h
    · exact bytesToHexLower_isLowerHex _ hmem_d8 c h
    · exact bytesToHexLower_isLowerHex _ hmem_d10 c h

/-- The RFC 4122 example UUID 123e4567-e89b-12d3-a456-426614174000. -/
def testUuid : Uuid :=
  { bytes := [0x12, 0x3e, 0x45, 0x67, 0xe8, 0x9b, 0x12, 0xd3,
              0xa4, 0x56, 0x42, 0x66, 0x14, 0x17, 0x40, 0x00] }

/-- Witness for generate_cache_key_spec: on the text abc and the example
UUID, the derived key is bit-exactly the documented format. -/
theorem generate_cache_key_spec_witness :
    testUuid.bytes.length = 16 ∧
    (uuidCanonical testUuid).length = 36 ∧
    String.mk (generateCacheKey ['a', 'b', 'c'] testUuid) =
      "900150983cd24fb0d6963f7d28e17f72:123e4567-e89b-12d3-a456-426614174000" := by
  have h := generate_cache_key_spec ['a', 'b', 'c'] testUuid (by decide) (by decide)
  exact ⟨by decide, h.2.2.2.2.2.1, by rfl⟩

/-! # Claim C4: segmenter content preservation -/

/-- The non-whitespace characters of one piece. -/
def nonWs (l : List Char) : List Char :=
  l.filter (fun c => !isRustWhitespace c)

theorem nonWs_append (a b : List Char) : nonWs (a ++ b) = nonWs a ++ nonWs b := by
  simp [nonWs, List.filter_append]

theorem nonWsContent_eq (l : List (List Char)) : nonWsContent l = nonWs l.flatten := rfl

theorem nonWsContent_cons (x : List Char) (l : List (List Char)) :
    nonWsContent (x :: l) = nonWs x ++ nonWsContent l := by
  simp [nonWsContent, nonWs, List.filter_append]

theorem nonWsContent_append (a b : List (List Char)) :
    nonWsContent (a ++ b) = nonWsContent a ++ nonWsContent b := by
  simp [nonWsContent, List.flatten_append, List.filter_append]

theorem nonWs_dropWhile (l : List Char) :
    nonWs (l.dropWhile isRustWhitespace) = nonWs l := by
  induction l with
  | nil => rfl
  | cons c rest ih =>
    by_cases h : isRustWhitespace c
    · simpa [List.dropWhile_cons, h, nonWs, List.filter_cons] using ih
    · simp [List.dropWhile_cons, h]

theorem nonWs_reverse (l : List Char) : nonWs l.reverse = (nonWs l).reverse := by
  simp [nonWs, List.filter_reverse]

theorem nonWs_trim (s : List Char) : nonWs (trimChars s) = nonWs s := by
  unfold trimChars
  rw [nonWs_reverse, nonWs_dropWhile, nonWs_reverse, List.reverse_reverse,
    nonWs_dropWhile]

theorem nonWs_of_trim_empty (s : List Char) (h : trimChars s = []) :
    nonWs s = [] := by
  rw [← nonWs_trim, h]
  rfl

/-- Content preservation of the delimiter scan: the trimmed pieces carry
exactly the non-whitespace characters of the buffer and the remaining
input. -/
theorem splitByDelimitersGo_content (m : Nat) :
    ∀ (rest current : List Char) (cnt : Nat),
    nonWsContent (splitByDelimitersGo m rest current cnt) = nonWs (current ++ rest) := by
  intro rest
  induction rest with
  | nil =>
    intro current cnt
    unfold splitByDelimitersGo
    by_cases h : (trimChars current).isEmpty
    · rw [if_pos h]
      have h0 : trimChars current = [] := by rwa [List.isEmpty_iff] at h
      rw [List.append_nil, nonWs_of_trim_empty current h0]
      rfl
    · rw [if_neg h]
      rw [List.append_nil, nonWsContent_cons, nonWs_trim]
      simp [nonWsContent, nonWs]
  | cons ch rest ih =>
    intro current cnt
    unfold splitByDelimitersGo
    dsimp only
    have hsplitEq : nonWs (current ++ ch :: rest) = nonWs (current ++ [ch]) ++ nonWs rest := by
      have : current ++ ch :: rest = (current ++ [ch]) ++ rest := by simp
      rw [this, nonWs_append]
    by_cases hs : (isStrongDelimiter ch ||
        (isWeakDelimiter ch && decide (m ≤ cnt + 1))) = true
    · rw [if_pos hs]
      by_cases h : (trimChars (current ++ [ch])).isEmpty
      · rw [if_pos h]
        have h0 : trimChars (current ++ [ch]) = [] := by
          rwa [List.isEmpty_iff] at h
        rw [List.nil_append, ih [] 0, hsplitEq, nonWs_of_trim_empty _ h0]
        simp [nonWs]
      · rw [if_neg h]
        rw [List.cons_append, List.nil_append, nonWsContent_cons, ih [] 0,
          nonWs_trim, hsplitEq]
        simp [nonWs]
    · rw [if_neg hs]
      rw [ih (current ++ [ch]) (cnt + 1)]
      simp

/-- The merge walk concatenates to the already-emitted segments, the
working buffer and the remaining pieces. -/
theorem mergeGo_flatten (m : Nat) :
    ∀ (segs : List (List Char)) (buffer : List Char) (acc : List (List Char)),
    (mergeGo m segs buffer acc).flatten =
      acc.reverse.flatten ++ buffer ++ segs.flatten := by
  intro segs
  induction segs with
  | nil =>
    intro buffer acc
    unfold mergeGo
    by_cases h : buffer.isEmpty
    · rw [if_pos h]
      have h0 : buffer = [] := by rwa [List.isEmpty_iff] at h
      simp [h0]
    · rw [if_neg h]
      cases acc with
      | nil => simp
      | cons last accRest => simp
  | cons seg rest ih =>
    intro buffer acc
    unfold mergeGo
    dsimp only
    by_cases h : m ≤ (buffer ++ seg).length
    · rw [if_pos h, ih]
      simp
    · rw [if_neg h, ih]
      simp

theorem mergeUntilMinChars_flatten (segs : List (List Char)) (m : Nat) :
    (mergeUntilMinChars segs m).flatten = segs.flatten := by
  unfold mergeUntilMinChars
  by_cases h : segs.isEmpty
  · rw [if_pos h]
  · rw [if_neg h, mergeGo_flatten]
    simp

/-- Per-line content preservation of split_line. -/
theorem splitLine_content (line : List Char) (m : Nat) :
    nonWsContent (splitLine line m) = nonWs line := by
  unfold splitLine
  rw [nonWsContent_eq, mergeUntilMinChars_flatten, ← nonWsContent_eq]
  simpa using splitByDelimitersGo_content m line [] 0

/-- The guard ruling out the leading-trivial drop of segment_text: the
first non-empty trimmed sentence, if any, is not quote/whitespace-only
(and therefore every later trivial sentence has a previous segment to be
appended to). -/
def goodFirst (S : List (List Char)) : Bool :=
  match (S.map trimChars).filter (fun l => !l.isEmpty) with
  | [] => true
  | h :: _ => !isTrivialSegment h

theorem nonWsContent_reverse_cons (x : List Char) (l : List (List Char)) :
    nonWsContent (x :: l).reverse = nonWsContent l.reverse ++ nonWs x := by
  simp [List.reverse_cons, nonWsContent_append, nonWsContent_cons,
    nonWsContent, nonWs]

/-- The sentence fold of segment_text preserves non-whitespace content as
long as no trivial sentence arrives while nothing has been emitted yet. -/
theorem stAdd_fold_content :
    ∀ (S : List (List Char)) (segsRev : List (List Char)),
    (segsRev ≠ [] ∨ goodFirst S = true) →
    nonWsContent (S.foldl stAdd segsRev).reverse =
      nonWsContent segsRev.reverse ++ nonWsContent S := by
  intro S
  induction S with
  | nil =>
    intro segsRev _
    simp [nonWsContent, nonWs]
  | cons s rest ih =>
    intro segsRev hcond
    simp only [List.foldl_cons]
    by_cases h1 : (trimChars s).isEmpty
    · have hst : stAdd segsRev s = segsRev := by
        unfold stAdd
        simp [h1]
      have h0 : trimChars s = [] := by rwa [List.isEmpty_iff] at h1
      have hcond' : segsRev ≠ [] ∨ goodFirst rest = true := by
        rcases hcond with h | h
        · exact Or.inl h
        · right
          unfold goodFirst at h ⊢
          rw [List.map_cons, List.filter_cons] at h
          simpa [h1] using h
      rw [hst, ih segsRev hcond', nonWsContent_cons,
        nonWs_of_trim_empty s h0]
      simp
    · by_cases h2 : isTrivialSegment (trimChars s) = true
      · have hne : segsRev ≠ [] := by
          rcases hcond with h | h
          · exact h
          · exfalso
            unfold goodFirst at h
            rw [List.map_cons, List.filter_cons] at h
            simp only [h1, Bool.not_false, if_true] at h
            simp [h2] at h
        obtain ⟨last, restRev, rfl⟩ : ∃ l r, segsRev = l :: r := by
          cases segsRev with
          | nil => exact absurd rfl hne
          | cons a b => exact ⟨a, b, rfl⟩
        have hst : stAdd (last :: restRev) s = (last ++ trimChars s) :: restRev := by
          unfold stAdd
          simp [h1, h2]
        rw [hst, ih _ (Or.inl (by simp)), nonWsContent_reverse_cons,
          nonWsContent_reverse_cons, nonWs_append, nonWs_trim,
          nonWsContent_cons]
        simp [List.append_assoc]
      · have hst : stAdd segsRev s = trimChars s :: segsRev := by
          unfold stAdd
          simp [h1, h2]
        rw [hst, ih _ (Or.inl (by simp)), nonWsContent_reverse_cons,
          nonWs_trim, nonWsContent_cons]
        simp [List.append_assoc]

/-- The nested line/sentence fold of segment_text is the flat fold over
all sentences of all lines. -/
theorem foldl_lines_sentences (m : Nat) :
    ∀ (ls : List (List Char)) (init : List (List Char)),
    ls.foldl (fun segsRev line => (splitLine line m).foldl stAdd segsRev) init =
      ((ls.map (fun l => splitLine l m)).flatten).foldl stAdd init := by
  intro ls
  induction ls with
  | nil => intro init; rfl
  | cons l rest ih =>
    intro init
    simp only [List.foldl_cons, List.map_cons, List.flatten_cons,
      List.foldl_append]
    exact ih _

/-- All sentences of all trimmed lines carry exactly the lines'
non-whitespace content. -/
theorem sentences_content (m : Nat) :
    ∀ ls : List (List Char),
    nonWsContent ((ls.map (fun l => splitLine l m)).flatten) = nonWsContent ls := by
  intro ls
  induction ls with
  | nil => rfl
  | cons l rest ih =>
    simp only [List.map_cons, List.flatten_cons]
    rw [nonWsContent_append, ih, splitLine_content, nonWsContent_cons]

/-- The flattened sentence stream of segment_text. -/
def segmenterSentences (text : List Char) (m : Nat) : List (List Char) :=
  ((((rustLines text).map trimChars).filter (fun l => !l.isEmpty)).map
    (fun l => splitLine l m)).flatten

/-- C4 counterexample: a first line consisting of a single double quote
is a trivial sentence with no previous segment; segment_text drops it,
so its non-whitespace character is lost - the output content is hi.
while the non-empty trimmed lines hold quote-hi-dot. -/
theorem segment_text_loses_leading_quote :
    segmentText ('"' :: '\n' :: ['h', 'i', '.']) 20 = [['h', 'i', '.']] ∧
    nonWsContent (segmentText ('"' :: '\n' :: ['h', 'i', '.']) 20) =
      ['h', 'i', '.'] ∧
    nonWsContent (((rustLines ('"' :: '\n' :: ['h', 'i', '.'])).map
      trimChars).filter (fun l => !l.isEmpty)) = ['"', 'h', 'i', '.'] ∧
    nonWsContent (segmentText ('"' :: '\n' :: ['h', 'i', '.']) 20) ≠
      nonWsContent (((rustLines ('"' :: '\n' :: ['h', 'i', '.'])).map
        trimChars).filter (fun l => !l.isEmpty)) := by
  refine ⟨by decide, by decide, by decide, ?_⟩
  decide

/-- C4 amended: whenever the first non-empty trimmed sentence of the
input is not quote/whitespace-only, the concatenated output of
segment_text carries exactly the non-whitespace characters of the
concatenated non-empty trimmed lines of the input (whitespace at piece
boundaries being trimmed); when the sentence stream opens with trivial
quote-only sentences, those are dropped, as the counterexample shows. -/
theorem segment_text_preserves_content (text : List Char) (m : Nat)
    (hgood : goodFirst (segmenterSentences text m) = true) :
    nonWsContent (segmentText text m) =
      nonWsContent (((rustLines text).map trimChars).filter
        (fun l => !l.isEmpty)) := by
  unfold segmentText
  dsimp only
  rw [foldl_lines_sentences]
  have h := stAdd_fold_content (segmenterSentences text m) [] (Or.inr hgood)
  unfold segmenterSentences at h
  rw [h]
  rw [sentences_content]
  simp [nonWsContent, nonWs]

/-- Witness for segment_text_preserves_content at a concrete input whose
sentence stream starts with a non-trivial sentence. -/
theorem segment_text_preserves_content_witness :
    goodFirst (segmenterSentences ('h' :: 'i' :: '.' :: '\n' :: ['"']) 20) = true ∧
    nonWsContent (segmentText ('h' :: 'i' :: '.' :: '\n' :: ['"']) 20) =
      nonWsContent (((rustLines ('h' :: 'i' :: '.' :: '\n' :: ['"'])).map
        trimChars).filter (fun l => !l.isEmpty)) :=
  ⟨by decide, segment_text_preserves_content _ 20 (by decide)⟩

end Rovel
